import Mathlib

set_option linter.unusedVariables false

namespace IeNet

/-- Byte strings (Rust `Vec<u8>`, or the UTF-8 bytes of a Rust `String`) are
modelled as lists of byte values. -/
abbrev Bytes := List Nat

/-- Bytes of an ASCII string literal (all literals used below are ASCII, so
code points and UTF-8 bytes agree). -/
def strBytes (s : String) : Bytes := s.data.map Char.toNat

/-- ASCII lowercasing of one byte, as Rust's `u8::to_ascii_lowercase`. -/
def toLowerByte (b : Nat) : Nat := if 65 ≤ b ∧ b ≤ 90 then b + 32 else b

/-- Rust `str::to_ascii_lowercase`, byte by byte. -/
def toAsciiLower (s : Bytes) : Bytes := s.map toLowerByte

/-- `only_allowed_chars_not_empty` from src/src/util.rs.  The allowed sets used
by the server are ASCII-only, so the byte-wise check agrees with the
char-wise check of the source (any multi-byte character has bytes ≥ 0x80,
which never occur in an ASCII allowed set). -/
def onlyAllowedCharsNotEmpty (input allowed : Bytes) : Bool :=
  !input.isEmpty && input.all (fun c => allowed.contains c)

/-! ### Outbound command rendering (src/src/messages/server_messages.rs) -/

/-- `escape_quotes` from src/src/messages/server_messages.rs: each `"` byte
(34) becomes the three bytes `%22` (37, 50, 50). -/
def escapeQuotes : Bytes → Bytes
  | [] => []
  | b :: rest => if b = 34 then 37 :: 50 :: 50 :: escapeQuotes rest else b :: escapeQuotes rest

/-- The ` "escaped-param"` blocks appended by `prepare_command`'s loop. -/
def renderParams : List Bytes → Bytes
  | [] => []
  | p :: ps => 32 :: 34 :: escapeQuotes p ++ 34 :: renderParams ps

/-- `prepare_command` from src/src/messages/server_messages.rs: the command
text, then every parameter quoted (with `"` escaped as `%22`) and preceded by
a space, then the NUL terminator. -/
def prepareCommand (command : Bytes) (params : List Bytes) : Bytes :=
  command ++ renderParams params ++ [0]

/-! ### Inbound command parsing (src/src/messages/raw_command.rs)

The nom combinators used by `raw_command.rs` are modelled directly on byte
lists; a parser returns `none` on failure and `some (rest, value)` on
success. -/

/-- nom's multispace character class: space, tab, LF, CR. -/
def isSpaceByte (b : Nat) : Bool := b = 32 || b = 9 || b = 10 || b = 13

/-- nom `is_alphabetic`: ASCII letters. -/
def isAlphaByte (b : Nat) : Bool := (65 ≤ b && b ≤ 90) || (97 ≤ b && b ≤ 122)

/-- nom `multispace1`: one or more whitespace bytes; returns the remaining
input. -/
def multispace1 (input : Bytes) : Option Bytes :=
  match input with
  | [] => none
  | b :: rest => if isSpaceByte b then some (rest.dropWhile isSpaceByte) else none

/-- nom `multispace0`: zero or more whitespace bytes. -/
def multispace0 (input : Bytes) : Bytes := input.dropWhile isSpaceByte

/-- The `command` parser of raw_command.rs:
`preceded(char('/'), take_while(is_alphabetic))`.  Returns (rest, verb). -/
def pCommand (input : Bytes) : Option (Bytes × Bytes) :=
  match input with
  | 47 :: rest => some (rest.dropWhile isAlphaByte, rest.takeWhile isAlphaByte)
  | _ => none

/-- The `quoted_param` parser of raw_command.rs:
`delimited(char('"'), take_till(c == '"'), alt((tag("\""), end_of_input)))`. -/
def quotedParam (input : Bytes) : Option (Bytes × Bytes) :=
  match input with
  | 34 :: rest =>
    let content := rest.takeWhile (fun b => b != 34)
    match rest.dropWhile (fun b => b != 34) with
    | 34 :: rest2 => some (rest2, content)
    | [] => some ([], content)
    | _ => none
  | _ => none

/-- Byte class of `is_not(" \t\"")`: anything except space, tab, quote. -/
def isBareByte (b : Nat) : Bool := !(b = 32 || b = 9 || b = 34)

/-- The `unquoted_param` parser of raw_command.rs: `is_not(" \t\"")`, one or
more bytes. -/
def unquotedParam (input : Bytes) : Option (Bytes × Bytes) :=
  let tok := input.takeWhile isBareByte
  if tok.isEmpty then none else some (input.dropWhile isBareByte, tok)

/-- The `any_param` parser: `alt((quoted_param, unquoted_param))`. -/
def anyParam (input : Bytes) : Option (Bytes × Bytes) :=
  match quotedParam input with
  | some r => some r
  | none => unquotedParam input

/-- Loop of nom's `separated_list(multispace1, any_param)`.  The fuel only
bounds the number of iterations: both sub-parsers consume at least one byte
on success, so nom's no-progress error can never fire, and the caller passes
fuel exceeding the number of possible separators. -/
def paramListLoop : Nat → Bytes → List Bytes → Option (Bytes × List Bytes)
  | 0, _, _ => none
  | fuel + 1, input, acc =>
    match multispace1 input with
    | none => some (input, acc.reverse)
    | some rest =>
      match anyParam rest with
      | none => some (input, acc.reverse)
      | some (rest2, p) => paramListLoop fuel rest2 (p :: acc)

/-- nom `separated_list(multispace1, any_param)`: possibly-empty list. -/
def paramList (fuel : Nat) (input : Bytes) : Option (Bytes × List Bytes) :=
  match anyParam input with
  | none => some (input, [])
  | some (rest, p) => paramListLoop fuel rest [p]

/-- `RawCommand` from src/src/messages/raw_command.rs. -/
structure RawCommand where
  command : Bytes
  params : List Bytes
deriving DecidableEq

/-- `client_command` (and its wrapper `try_parse_raw_command`) from
src/src/messages/raw_command.rs: parse the verb, then
`opt(preceded(multispace1, param_list))`, then
`tuple((multispace0, end_of_input))`; the verb is ASCII-lowercased. -/
def tryParseRawCommand (input : Bytes) : Option RawCommand :=
  match pCommand input with
  | none => none
  | some (rest, verb) =>
    let (rest2, params) :=
      match multispace1 rest with
      | none => (rest, [])
      | some rest1 =>
        match paramList (input.length + 1) rest1 with
        | none => (rest, [])
        | some (r, ps) => (r, ps)
    if (multispace0 rest2).isEmpty then
      some { command := toAsciiLower verb, params := params }
    else none

/-! ### Handshake frame decoding (src/src/server/messages/login_client.rs) -/

/-- Little-endian `u32` read from four bytes. -/
def leU32 (b0 b1 b2 b3 : Nat) : Nat := b0 + 256 * b1 + 65536 * b2 + 16777216 * b3

/-- Result of `LoginClientMessage::try_parse`: `ok none` is "need more data",
`ok (some m)` a decoded message plus the unconsumed buffer, `err` a
connection-fatal parse error. -/
inductive FrameParse (α : Type) where
  | ok (msg : Option α) (rest : Bytes)
  | err
deriving DecidableEq

/-- `LoginClientMessage::try_parse` from src/src/server/messages/login_client.rs.
The zlib decompression and the status-dependent payload decoding
(`decompress_bytes` plus `try_parse_ident` / `try_parse_login`) are abstracted
as the parameter `interp`: it receives the bytes strictly between the length
prefix and the end of the block and returns the decoded message, `none`
standing for a decompression or payload error (propagated by `?` as fatal).
A block length below 4 (a self-contradictory prefix) is not modelled; the
claims only concern lengths 4096 and above. -/
def tryParseHandshake {α : Type} (interp : Bytes → Option α) (data : Bytes) : FrameParse α :=
  match data with
  | b0 :: b1 :: b2 :: b3 :: _ =>
    let blockEnd := leU32 b0 b1 b2 b3
    if blockEnd > 4096 then .err
    else if data.length < blockEnd then .ok none data
    else
      match interp ((data.take blockEnd).drop 4) with
      | some msg => .ok (some msg) (data.drop blockEnd)
      | none => .err
  | _ => .ok none data

/-! ### Association-list model of the Rust `HashMap`s -/

/-- `HashMap::get`. -/
def lookupKey {κ α : Type} [DecidableEq κ] (k : κ) : List (κ × α) → Option α
  | [] => none
  | (k', v) :: rest => if k' = k then some v else lookupKey k rest

/-- `HashMap::remove`. -/
def eraseKey {κ α : Type} [DecidableEq κ] (k : κ) : List (κ × α) → List (κ × α)
  | [] => []
  | (k', v) :: rest => if k' = k then rest else (k', v) :: eraseKey k rest

/-- `HashMap::insert` (replace semantics; Rust's iteration order is
unspecified, modelled deterministically by moving the entry to the back). -/
def insertKey {κ α : Type} [DecidableEq κ] (k : κ) (v : α) (l : List (κ × α)) :
    List (κ × α) :=
  eraseKey k l ++ [(k, v)]

/-! ### Broker data model (src/src/broker/) -/

/-- An IPv4 address as its four octets. -/
abbrev Ipv4 := Nat × Nat × Nat × Nat

/-- `Location` from src/src/broker/user.rs. -/
inductive Location where
  | channel (name : Bytes)
  | game (name : Bytes)
  | nowhere
deriving DecidableEq

/-- `Location::to_string` from src/src/broker/user.rs: `#name`, `$name`,
`[nowhere]`. -/
def Location.render : Location → Bytes
  | .channel name => 35 :: name
  | .game name => 36 :: name
  | .nowhere => strBytes ("[nowhere]")

/-- The outbound server messages of src/src/messages/server_messages.rs and
src/src/messages/login_server.rs as a tagged variant, one constructor per
message struct, carrying the struct's fields. -/
inductive ServerMsg where
  | sendMsg (username message : Bytes)
  | privateMsg (fromUser toUser location message : Bytes)
  | sentPrivateMsg (toUser message : Bytes)
  | errorMsg (error : Bytes)
  | newChannel (channelName : Bytes)
  | dropChannel (channelName : Bytes)
  | newUserMsg (username : Bytes)
  | userJoined (username : Bytes) (versionIdx : Nat) (origin : Option Bytes)
  | userLeft (username : Bytes) (destination : Option Bytes)
  | joinedChannel (channelName : Bytes)
  | createGameMsg (version : Nat) (gameName password : Bytes) (id : Nat)
  | joinGameMsg (version : Nat) (gameName password : Bytes) (ipAddr : Ipv4) (id : Nat)
  | newGameMsg (gameName : Bytes) (id : Nat)
  | dropGameMsg (gameName : Bytes)
  | syncStats (usersTotal usersOnline channelsTotal gamesTotal gamesOpen : Nat)
  | reject (reason : Bytes)
  | welcome (serverIdent welcomeMessage : Bytes)
      (playersTotal playersOnline channelsTotal gamesTotal gamesRunning gamesAvailable : Nat)
      (gameVersions : List Bytes) (initialChannel : Bytes)
deriving DecidableEq

/-- A batch of sends: (recipient user id, message) in emission order. -/
abbrev Out := List (Nat × ServerMsg)

/-- `User` from src/src/broker/user.rs (the outbound channel handle is
replaced by collecting sends in `Out`). -/
structure User where
  id : Nat
  username : Bytes
  location : Location
  gameVersion : Nat
  ipAddr : Ipv4
deriving DecidableEq

/-- `Users` from src/src/broker/user.rs. -/
structure Users where
  byId : List (Nat × User)
  byName : List (Bytes × Nat)
deriving DecidableEq

/-- `Users::users_in_location`. -/
def Users.usersInLocation (users : Users) (loc : Location) : List User :=
  (users.byId.map Prod.snd).filter (fun u => decide (u.location = loc))

/-- `Users::occupied_locations`. -/
def Users.occupiedLocations (users : Users) : List Location :=
  users.byId.map (fun p => p.2.location)

/-- `Users::by_username`: case-insensitive lookup via the name index. -/
def Users.byUsername (users : Users) (username : Bytes) : Option User :=
  match lookupKey (toAsciiLower username) users.byName with
  | some id => lookupKey id users.byId
  | none => none

/-- `Users::by_user_id`. -/
def Users.byUserId (users : Users) (id : Nat) : Option User :=
  lookupKey id users.byId

/-- `Users::send_to_location`: one send per user whose location matches. -/
def sendToLocation (byId : List (Nat × User)) (loc : Location) (m : ServerMsg) : Out :=
  byId.filterMap (fun p => if p.2.location = loc then some (p.2.id, m) else none)

/-- `Users::send_to_all`. -/
def sendToAll (byId : List (Nat × User)) (m : ServerMsg) : Out :=
  byId.map (fun p => (p.2.id, m))

/-- `Users::insert` from src/src/broker/user.rs: announce the new user to
their location, then insert into both indices. -/
def Users.insert (users : Users) (u : User) : Users × Out :=
  (⟨insertKey u.id u users.byId, insertKey (toAsciiLower u.username) u.id users.byName⟩,
   sendToLocation users.byId u.location (.userJoined u.username 0 none))

/-- `Users::update` from src/src/broker/user.rs: insert if absent; otherwise
remove the old entry, announce the location change (join to the new
location, leave to the old one, both over the map without the user), and
re-insert. -/
def Users.update (users : Users) (u : User) : Users × Out :=
  match lookupKey u.id users.byId with
  | none => users.insert u
  | some prev =>
    let byId' := eraseKey u.id users.byId
    let out :=
      if prev.location = u.location then []
      else
        sendToLocation byId' u.location (.userJoined u.username 0 (some prev.location.render)) ++
          sendToLocation byId' prev.location (.userLeft u.username (some u.location.render))
    ({ users with byId := byId' ++ [(u.id, u)] }, out)

/-- `Users::remove` from src/src/broker/user.rs. -/
def Users.remove (users : Users) (id : Nat) : Users × Out :=
  match lookupKey id users.byId with
  | none => (users, [])
  | some u =>
    (⟨eraseKey id users.byId, eraseKey (toAsciiLower u.username) users.byName⟩,
     sendToLocation (eraseKey id users.byId) u.location (.userLeft u.username none))

/-- The ids the broker would fan a broadcast out to. -/
def userIds (users : Users) : List Nat := users.byId.map (fun p => p.2.id)

/-- `Channel` from src/src/broker/channel.rs. -/
structure Channel where
  name : Bytes
deriving DecidableEq

/-- `Channel::to_location`. -/
def Channel.toLocation (c : Channel) : Location := .channel c.name

/-- `Channels` from src/src/broker/channel.rs. -/
structure Channels where
  byName : List (Bytes × Channel)
deriving DecidableEq

/-- `DEFAULT_CHANNEL` from src/src/broker/channel.rs. -/
def DEFAULT_CHANNEL : Bytes := strBytes ("General")

/-- `Channels::get`. -/
def Channels.get (channels : Channels) (name : Bytes) : Option Channel :=
  lookupKey (toAsciiLower name) channels.byName

/-- `Channels::get_or_create` from src/src/broker/channel.rs: on creation the
new channel is broadcast to every user. -/
def Channels.getOrCreate (channels : Channels) (users : Users) (name : Bytes) :
    Channels × Out × Channel :=
  match lookupKey (toAsciiLower name) channels.byName with
  | some c => (channels, [], c)
  | none =>
    let c : Channel := ⟨name⟩
    (⟨insertKey (toAsciiLower name) c channels.byName⟩,
     sendToAll users.byId (.newChannel c.name), c)

/-- `Channels::remove` from src/src/broker/channel.rs. -/
def Channels.removeChannel (channels : Channels) (users : Users) (name : Bytes) :
    Channels × Out :=
  match lookupKey (toAsciiLower name) channels.byName with
  | none => (channels, [])
  | some c =>
    (⟨eraseKey (toAsciiLower name) channels.byName⟩,
     sendToAll users.byId (.dropChannel c.name))

/-- One removal step of the `check_remove_empty_channels` loop. -/
def Channels.removeStep (users : Users) (acc : Channels × Out) (n : Bytes) : Channels × Out :=
  let r := Channels.removeChannel acc.1 users n
  (r.1, acc.2 ++ r.2)

/-- `Channels::check_remove_empty_channels` from src/src/broker/channel.rs:
collect the names of unoccupied channels, then remove each. -/
def Channels.checkRemoveEmpty (channels : Channels) (users : Users) : Channels × Out :=
  let occupied := users.occupiedLocations
  let empty := (channels.byName.filter
    (fun p => decide (p.2.toLocation ∉ occupied))).map (fun p => p.2.name)
  empty.foldl (Channels.removeStep users) (channels, [])

/-- `GameStatus` from src/src/broker/game.rs. -/
inductive GameStatus where
  | requested
  | opened
  | started
deriving DecidableEq

/-- `Game` from src/src/broker/game.rs (Uuids as 128-bit numbers, the
creation `Instant` as a second count). -/
structure Game where
  hostedBy : Nat
  hostIp : Ipv4
  id : Nat
  gameVersion : Nat
  name : Bytes
  password : Bytes
  status : GameStatus
  createdAt : Nat
deriving DecidableEq

/-- `Game::to_location`. -/
def Game.toLocation (g : Game) : Location := .game g.name

/-- `Games` from src/src/broker/game.rs. -/
structure Games where
  byName : List (Bytes × Game)
deriving DecidableEq

/-- `Games::count`. -/
def Games.count (games : Games) : Nat := games.byName.length

/-- `Games::count_open`. -/
def Games.countOpen (games : Games) : Nat :=
  (games.byName.filter (fun p => decide (p.2.status = .opened))).length

/-- `Games::get`. -/
def Games.get (games : Games) (name : Bytes) : Option Game :=
  lookupKey (toAsciiLower name) games.byName

/-- `Games::create_game` from src/src/broker/game.rs: a fresh game in
Requested status with the all-zero invite GUID, stamped with the host and
the current time; the host receives `/plays` carrying a freshly minted GUID
(`Uuid::new_v4`, passed in as `freshGuid`). -/
def Games.createGame (games : Games) (user : User) (name password : Bytes)
    (freshGuid now : Nat) : Games × Out :=
  let g : Game :=
    { hostedBy := user.id, hostIp := user.ipAddr, name := name, password := password,
      status := .requested, id := 0, gameVersion := user.gameVersion, createdAt := now }
  (⟨insertKey (toAsciiLower name) g games.byName⟩,
   [(user.id, .createGameMsg user.gameVersion g.name g.password freshGuid)])

/-- `Games::open_game` from src/src/broker/game.rs. -/
def Games.openGame (games : Games) (users : Users) (name : Bytes) (guid : Nat) :
    Games × Out :=
  match games.get name with
  | none => (games, [])
  | some g =>
    let g' := { g with id := guid, status := .opened }
    (⟨insertKey (toAsciiLower name) g' games.byName⟩,
     sendToAll users.byId (.newGameMsg g'.name g'.id))

/-- `Games::start_game` from src/src/broker/game.rs. -/
def Games.startGame (games : Games) (users : Users) (name : Bytes) : Games × Out :=
  match games.get name with
  | none => (games, [])
  | some g =>
    let g' := { g with status := .started }
    (⟨insertKey (toAsciiLower name) g' games.byName⟩,
     sendToAll users.byId (.dropGameMsg g'.name))

/-- `Games::remove` from src/src/broker/game.rs: `/&play` is broadcast only
when the removed game was Open. -/
def Games.removeGame (games : Games) (users : Users) (name : Bytes) : Games × Out :=
  match lookupKey (toAsciiLower name) games.byName with
  | none => (games, [])
  | some g =>
    (⟨eraseKey (toAsciiLower name) games.byName⟩,
     if g.status = .opened then sendToAll users.byId (.dropGameMsg g.name) else [])

/-- One removal step of the `check_remove_empty_games` loop
(src/src/broker/game.rs: collect every game that is Requested and older than
30 seconds, or non-Requested with no occupant, then remove each). -/
def Games.removeStep (users : Users) (acc : Games × Out) (n : Bytes) : Games × Out :=
  let r := Games.removeGame acc.1 users n
  (r.1, acc.2 ++ r.2)

/-- `Games::check_remove_empty_games` continued: the removal loop. -/
def Games.checkRemoveEmpty (games : Games) (users : Users) (now : Nat) : Games × Out :=
  let occupied := users.occupiedLocations
  let stale := (games.byName.filter (fun p =>
    if p.2.status = .requested then decide (30 < now - p.2.createdAt)
    else decide (p.2.toLocation ∉ occupied))).map (fun p => p.2.name)
  stale.foldl (Games.removeStep users) (games, [])

/-- `Games::announce_open` from src/src/broker/game.rs. -/
def Games.announceOpen (games : Games) (uid : Nat) : Out :=
  (games.byName.filter (fun p => decide (p.2.status = .opened))).map
    (fun p => (uid, .newGameMsg p.2.name p.2.id))

/-! ### GUID parsing -/

/-- ASCII hex digit. -/
def isHexByte (b : Nat) : Bool :=
  (48 ≤ b && b ≤ 57) || (97 ≤ b && b ≤ 102) || (65 ≤ b && b ≤ 70)

/-- Value of an ASCII hex digit. -/
def hexVal (b : Nat) : Nat :=
  if b ≤ 57 then b - 48 else if b ≤ 70 then b - 55 else b - 87

/-- `Uuid::parse_str` applied to the raw parameter bytes
(`bytevec_to_str`'s lossy UTF-8 conversion is the identity on the hex and
hyphen characters involved), restricted to the standard hyphenated
8-4-4-4-12 form — the only form the protocol exchanges; the other input
forms the uuid crate accepts are not modelled. -/
def parseGuid (s : Bytes) : Option Nat :=
  if s.length = 36 ∧ ∀ i ∈ [8, 13, 18, 23], s.getD i 0 = 45 then
    let digits := (List.range 36).filterMap (fun i =>
      if i = 8 ∨ i = 13 ∨ i = 18 ∨ i = 23 then none else some (s.getD i 0))
    if digits.all isHexByte then
      some (digits.foldl (fun a b => a * 16 + hexVal b) 0)
    else none
  else none

/-- The hyphenated all-zero GUID. -/
def zeroGuidBytes : Bytes := strBytes ("00000000-0000-0000-0000-000000000000")

/-! ### Client commands and broker events -/

/-- `ClientCommand`, with the variants `Broker::handle_client_command`
(src/src/broker/mod.rs) matches on. -/
inductive ClientCommand where
  | send (message : Bytes)
  | privateMessage (target message : Bytes)
  | join (channel : Bytes)
  | hostGame (gameName passwordOrGuid : Bytes)
  | joinGame (gameName password : Bytes)
  | noOp
  | malformed (reason : Bytes)
  | unknown (command : Bytes)
deriving DecidableEq

/-- `Event` from src/src/broker/mod.rs (the outbound handle is dropped; the
fresh GUID and the clock reading of an event are supplied alongside it). -/
inductive Event where
  | newUser (id : Nat) (username : Bytes) (gameVersion : Nat) (ipAddr : Ipv4)
  | command (id : Nat) (command : ClientCommand)
  | dropClient (id : Nat)
deriving DecidableEq

/-- The aggregate stats snapshot of spec §3: users total/online, channels
total, games total/open. -/
structure Stats where
  usersTotal : Nat
  usersOnline : Nat
  channelsTotal : Nat
  gamesTotal : Nat
  gamesOpen : Nat
deriving DecidableEq

/-- The broker state: the three maps plus the last stats snapshot. -/
structure BrokerState where
  users : Users
  channels : Channels
  games : Games
  lastStats : Stats
deriving DecidableEq

/-- `Broker::new`: all maps empty. -/
def initState : BrokerState := ⟨⟨[], []⟩, ⟨[]⟩, ⟨[]⟩, ⟨0, 0, 0, 0, 0⟩⟩

/-- Modelled from the spec: the stats snapshot counters ("users
total/online, channels total, games total/open", §3) computed from the
broker maps; the games counters are `Games::count` / `Games::count_open`
from src/src/broker/game.rs.  The revision of broker/mod.rs in the tree
predates the stats snapshot, so the user and channel counter expressions
follow the spec's words. -/
def computeStats (s : BrokerState) : Stats :=
  ⟨s.users.byId.length, s.users.byId.length, s.channels.byName.length,
   s.games.count, s.games.countOpen⟩

/-- `ALLOWED_NAME_CHARS` from src/src/broker/mod.rs. -/
def ALLOWED_NAME_CHARS : Bytes :=
  strBytes ("abcdefghijklmnopqrstuvwxyzABCDEFGHIJKLMNOPQRSTUVWXYZ0123456789-_")

/-- `ALLOWED_GAME_NAME_CHARS` from src/src/broker/game.rs (adds `+.| `). -/
def ALLOWED_GAME_NAME_CHARS : Bytes :=
  strBytes ("abcdefghijklmnopqrstuvwxyzABCDEFGHIJKLMNOPQRSTUVWXYZ0123456789-_+.| ")

/-! ### Broker handlers (src/src/broker/mod.rs) -/

/-- `Broker::public_message`. -/
def publicMessage (users : Users) (user : User) (message : Bytes) : Out :=
  sendToLocation users.byId user.location (.sendMsg user.username message)

/-- Rust's `&target[0..1]` on the UTF-8 string `target`: `none` models the
panic (out-of-bounds on the empty string, or byte index 1 not a character
boundary when the first character is multi-byte). -/
def sliceFirstChar : Bytes → Option Bytes
  | [] => none
  | [b] => some [b]
  | b :: b2 :: _ => if 128 ≤ b2 ∧ b2 < 192 then none else some [b]

/-- `Broker::private_message` from src/src/broker/mod.rs: route by the first
character of the target; the handler never modifies broker state, so only
the sends are returned; `none` models the panic of `&target[0..1]`. -/
def privateMessage (s : BrokerState) (user : User) (target message : Bytes) : Option Out :=
  match sliceFirstChar target with
  | none => none
  | some fb =>
    if fb = [35] then
      match s.channels.get (target.drop 1) with
      | some chan =>
        some ((user.id, .sentPrivateMsg (35 :: chan.name) message) ::
          sendToLocation s.users.byId chan.toLocation
            (.privateMsg user.username (35 :: chan.name) user.location.render message))
      | none => some [(user.id, .errorMsg (strBytes ("Unknown target: ") ++ target))]
    else if fb = [36] then
      match lookupKey (toAsciiLower (target.drop 1)) s.games.byName with
      | some game =>
        some ((user.id, .sentPrivateMsg (36 :: game.name) message) ::
          sendToLocation s.users.byId (.game game.name)
            (.privateMsg user.username (36 :: game.name) user.location.render message))
      | none => some [(user.id, .errorMsg (strBytes ("Unknown target: ") ++ target))]
    else
      match s.users.byUsername target with
      | some recipient =>
        some [(user.id, .sentPrivateMsg recipient.username message),
          (recipient.id, .privateMsg user.username recipient.username
            user.location.render message)]
      | none => some [(user.id, .errorMsg (strBytes ("Unknown target: ") ++ target))]

/-- `Broker::join_channel` from src/src/broker/mod.rs. -/
def joinChannel (users : Users) (channels : Channels) (user : User)
    (channelName : Bytes) : Users × Channels × Out :=
  if !(onlyAllowedCharsNotEmpty channelName ALLOWED_NAME_CHARS) then
    (users, channels, [(user.id, .errorMsg (strBytes ("Invalid channel name")))])
  else
    let goc := channels.getOrCreate users channelName
    let chan := goc.2.2
    if chan.toLocation = user.location then (users, goc.1, goc.2.1)
    else
      let listOut := (users.usersInLocation chan.toLocation).map
        (fun u => (user.id, ServerMsg.newUserMsg u.username))
      let upd := users.update { user with location := chan.toLocation }
      (upd.1, goc.1,
        goc.2.1 ++ (user.id, ServerMsg.joinedChannel chan.name) :: listOut ++ upd.2)

/-- `Broker::host_game` of the final revision: the dispatch logic mirrors
the tree's broker/mod.rs `host_game` (written against an earlier games
representation), with creation/opening/starting performed by
`Games::create_game` / `open_game` / `start_game` from src/src/broker/game.rs.
Modelled from the spec: the name is validated against the game character set
(§4.5 "Validate name against the game character set") — the constant
`ALLOWED_GAME_NAME_CHARS` is declared in src/src/broker/game.rs but its
final caller is missing from the tree. -/
def hostGame (users : Users) (games : Games) (user : User)
    (gameName passwordOrGuid : Bytes) (freshGuid now : Nat) : Users × Games × Out :=
  if !(onlyAllowedCharsNotEmpty gameName ALLOWED_GAME_NAME_CHARS) then
    (users, games, [(user.id, .errorMsg (strBytes ("Invalid game name")))])
  else
    match games.get gameName with
    | none =>
      let cr := games.createGame user gameName passwordOrGuid freshGuid now
      (users, cr.1, cr.2)
    | some g =>
      match parseGuid passwordOrGuid with
      | none => (users, games, [(user.id, .errorMsg (strBytes ("Game already exists.")))])
      | some guid =>
        if g.status = .started ∨ g.hostedBy ≠ user.id then
          (users, games, [(user.id, .errorMsg (strBytes ("Game already exists.")))])
        else
          match g.status with
          | .requested =>
            let op := games.openGame users gameName guid
            let upd := users.update { user with location := Location.game g.name }
            (upd.1, op.1, op.2 ++ upd.2)
          | .opened =>
            let st := games.startGame users gameName
            (users, st.1, st.2)
          | .started => (users, games, [])

/-- `Broker::join_game` from src/src/broker/mod.rs: a password that parses
as a GUID equal to the game's invite token moves the caller into the game
(the stored password is never consulted on this path); otherwise a matching
raw password earns a `/playc` reply with the host address, and anything else
an error. -/
def joinGame (users : Users) (games : Games) (user : User)
    (gameName password : Bytes) : Users × Out :=
  match games.get gameName with
  | none => (users, [(user.id, .errorMsg (strBytes ("Game does not exist")))])
  | some g =>
    match parseGuid password with
    | some gid =>
      if gid = g.id then
        users.update { user with location := Location.game g.name }
      else (users, [])
    | none =>
      if password = g.password then
        (users, [(user.id, .joinGameMsg user.gameVersion g.name password g.hostIp g.id)])
      else (users, [(user.id, .errorMsg (strBytes ("Invalid password")))])

/-- `Broker::handle_client_command` from src/src/broker/mod.rs; `none`
models a panic inside a sub-handler. -/
def handleClientCommand (s : BrokerState) (uid : Nat) (cmd : ClientCommand)
    (freshGuid now : Nat) : Option (BrokerState × Out) :=
  match s.users.byUserId uid with
  | none => some (s, [])
  | some user =>
    match cmd with
    | .send message => some (s, publicMessage s.users user message)
    | .privateMessage target message =>
      (privateMessage s user target message).map (fun out => (s, out))
    | .join channel =>
      let r := joinChannel s.users s.channels user channel
      some ({ s with users := r.1, channels := r.2.1 }, r.2.2)
    | .hostGame gameName pw =>
      let r := hostGame s.users s.games user gameName pw freshGuid now
      some ({ s with users := r.1, games := r.2.1 }, r.2.2)
    | .joinGame gameName pw =>
      let r := joinGame s.users s.games user gameName pw
      some ({ s with users := r.1 }, r.2)
    | .noOp => some (s, [])
    | .malformed reason => some (s, [(user.id, .errorMsg reason)])
    | .unknown c => some (s, [(user.id, .errorMsg (strBytes ("Unknown command: ") ++ c))])

/-- `Broker::handle_new_user` from src/src/broker/mod.rs (the duplicate
check of lines 390-400 sends a Reject to the new connection and returns
without touching state; otherwise Welcome, channel and open-game snapshot,
insertion at Nowhere, then a join of the default channel).  The inner `none`
branch is unreachable: the lookup follows the insertion of that very id. -/
def handleNewUser (s : BrokerState) (id : Nat) (username : Bytes)
    (gameVersion : Nat) (ipAddr : Ipv4) : BrokerState × Out :=
  let user : User := ⟨id, username, .nowhere, gameVersion, ipAddr⟩
  match s.users.byUsername username with
  | some _ => (s, [(id, .reject (strBytes ("Already logged in")))])
  | none =>
    let welcomeOut : Out := [(id, .welcome (strBytes ("IE::Net"))
      (strBytes ("Welcome to IE::Net, a community-operated EarthNet server"))
      0 0 0 0 0 0 [strBytes ("tmp2.2")] DEFAULT_CHANNEL)]
    let chanOut : Out := s.channels.byName.map (fun p => (id, .newChannel p.2.name))
    let gameOut := s.games.announceOpen id
    let ins := s.users.insert user
    match lookupKey id ins.1.byId with
    | some u2 =>
      let jc := joinChannel ins.1 s.channels u2 DEFAULT_CHANNEL
      ({ s with users := jc.1, channels := jc.2.1 },
       welcomeOut ++ chanOut ++ gameOut ++ ins.2 ++ jc.2.2)
    | none => ({ s with users := ins.1 }, welcomeOut ++ chanOut ++ gameOut ++ ins.2)

/-- The event dispatch of `Broker::handle_event` (src/src/broker/mod.rs). -/
def dispatch (s : BrokerState) (e : Event) (freshGuid now : Nat) :
    Option (BrokerState × Out) :=
  match e with
  | .newUser id username gameVersion ipAddr =>
    some (handleNewUser s id username gameVersion ipAddr)
  | .command id cmd => handleClientCommand s id cmd freshGuid now
  | .dropClient id =>
    let r := s.users.remove id
    some ({ s with users := r.1 }, r.2)

/-- Post-event housekeeping.  Empty-channel removal is
`Channels::check_remove_empty_channels` as called by the tree's
`handle_event`; the game sweep (`Games::check_remove_empty_games` of
src/src/broker/game.rs) and the stats recomputation with
broadcast-on-change are modelled from the spec's §4.5 "Post-event
housekeeping" list, their final caller being missing from the tree. -/
def housekeeping (s : BrokerState) (now : Nat) : BrokerState × Out :=
  let ch := s.channels.checkRemoveEmpty s.users
  let gh := s.games.checkRemoveEmpty s.users now
  let s1 : BrokerState := { s with channels := ch.1, games := gh.1 }
  let ns := computeStats s1
  let out3 := if ns ≠ s.lastStats then
      sendToAll s1.users.byId
        (.syncStats ns.usersTotal ns.usersOnline ns.channelsTotal ns.gamesTotal ns.gamesOpen)
    else []
  ({ s1 with lastStats := ns }, ch.2 ++ gh.2 ++ out3)

/-- One full broker event: dispatch, then post-event housekeeping. -/
def step (s : BrokerState) (e : Event) (freshGuid now : Nat) :
    Option (BrokerState × Out) :=
  (dispatch s e freshGuid now).map (fun r =>
    let hk := housekeeping r.1 now
    (hk.1, r.2 ++ hk.2))

/-- A timed event: the event, the fresh GUID minted during it, the clock. -/
abbrev TimedEvent := Event × Nat × Nat

/-- Run a sequence of events through the broker loop. -/
def runEvents : BrokerState → List TimedEvent → Option BrokerState
  | s, [] => some s
  | s, (e, freshGuid, now) :: rest =>
    match step s e freshGuid now with
    | none => none
    | some (s', _) => runEvents s' rest

/-- Broker states reachable from the initial state by some event sequence. -/
def Reachable (s : BrokerState) : Prop :=
  ∃ evs : List TimedEvent, runEvents initState evs = some s

/-! ### Command frame extraction and line dispatch -/

/-- The framing half of `ClientCommand::try_parse`
(src/src/messages/client_command.rs): split the buffer at the first NUL,
yielding the line before it and the remainder after it (`none` = no
complete frame yet). -/
def commandFrameSplit : Bytes → Option (Bytes × Bytes)
  | [] => none
  | b :: rest =>
    if b = 0 then some ([], rest)
    else (commandFrameSplit rest).map (fun p => (b :: p.1, p.2))

/-- `concat_params` from src/src/messages/client_command.rs. -/
def concatParams : List Bytes → Bytes
  | [] => []
  | [p] => p
  | p :: ps => p ++ 32 :: concatParams ps

/-- `match_raw_command` from src/src/messages/client_command.rs (the
send/join/plays dispatch present in the tree). -/
def matchRawCommand (raw : RawCommand) : ClientCommand :=
  if raw.command = strBytes ("send") then
    if raw.params.isEmpty then .malformed (strBytes ("Missing parameters for /send"))
    else .send (concatParams raw.params)
  else if raw.command = strBytes ("join") then
    if raw.params.isEmpty then .malformed (strBytes ("Missing parameters for /join"))
    else .join (concatParams raw.params)
  else if raw.command = strBytes ("plays") then
    if raw.params.length < 3 then .malformed (strBytes ("Missing parameters for /plays"))
    else .hostGame (raw.params.getD 1 []) (raw.params.getD 2 [])
  else .unknown raw.command

/-- Modelled from the spec: "Empty command line is accepted and produces no
event" (§8) and the empty-line → no-op row of §4.2.  The final
`ClientCommand` parser is missing from the tree (src's
messages/client_command.rs predates the `NoOp` variant that broker/mod.rs
consumes); a nonempty line follows the tree's parser and
`match_raw_command`. -/
def clientCommandOfLine (line : Bytes) : ClientCommand :=
  if line.isEmpty then .noOp
  else
    match tryParseRawCommand line with
    | none => .malformed (strBytes ("Received message is invalid"))
    | some raw => matchRawCommand raw

/-! ### Well-formedness invariants of reachable broker states -/

/-- The user map is well keyed: ids as keys, no duplicate keys. -/
def UsersWF (users : Users) : Prop :=
  (∀ p ∈ users.byId, p.1 = p.2.id) ∧ (users.byId.map Prod.fst).Nodup

/-- The channel map is keyed by the lowercased display name, without
duplicate keys. -/
def ChansWF (channels : Channels) : Prop :=
  (∀ p ∈ channels.byName, p.1 = toAsciiLower p.2.name) ∧
    (channels.byName.map Prod.fst).Nodup

/-- The game map is keyed by the lowercased display name, without duplicate
keys, and every Requested game stores the zero invite GUID. -/
def GamesWF (games : Games) : Prop :=
  (∀ p ∈ games.byName, p.1 = toAsciiLower p.2.name) ∧
    (games.byName.map Prod.fst).Nodup ∧
    (∀ p ∈ games.byName, p.2.status = GameStatus.requested → p.2.id = 0)

/-- A location is covered by the channel map: if it is a channel location,
a channel with that display name is present. -/
def locationChanOk (channels : Channels) : Location → Prop
  | Location.channel n => ∃ q ∈ channels.byName, q.2.name = n
  | Location.game _ => True
  | Location.nowhere => True

instance locationChanOkDec (channels : Channels) (l : Location) :
    Decidable (locationChanOk channels l) :=
  match l with
  | Location.channel n =>
    inferInstanceAs (Decidable (∃ q ∈ channels.byName, q.2.name = n))
  | Location.game _ => inferInstanceAs (Decidable True)
  | Location.nowhere => inferInstanceAs (Decidable True)

/-- Every user located in a channel sits in a channel that exists in the
channel map under its display name. -/
def UserChan (users : Users) (channels : Channels) : Prop :=
  ∀ p ∈ users.byId, locationChanOk channels p.2.location

/-- The inductive invariant of broker states. -/
def Inv (s : BrokerState) : Prop :=
  UsersWF s.users ∧ ChansWF s.channels ∧ GamesWF s.games ∧ UserChan s.users s.channels

instance usersWFDec (users : Users) : Decidable (UsersWF users) :=
  inferInstanceAs (Decidable ((∀ p ∈ users.byId, p.1 = p.2.id) ∧
    (users.byId.map Prod.fst).Nodup))

instance chansWFDec (channels : Channels) : Decidable (ChansWF channels) :=
  inferInstanceAs (Decidable ((∀ p ∈ channels.byName, p.1 = toAsciiLower p.2.name) ∧
    (channels.byName.map Prod.fst).Nodup))

instance gamesWFDec (games : Games) : Decidable (GamesWF games) :=
  inferInstanceAs (Decidable ((∀ p ∈ games.byName, p.1 = toAsciiLower p.2.name) ∧
    (games.byName.map Prod.fst).Nodup ∧
    (∀ p ∈ games.byName, p.2.status = GameStatus.requested → p.2.id = 0)))

instance userChanDec (users : Users) (channels : Channels) :
    Decidable (UserChan users channels) :=
  inferInstanceAs (Decidable (∀ p ∈ users.byId, locationChanOk channels p.2.location))

instance invDec (s : BrokerState) : Decidable (Inv s) :=
  inferInstanceAs (Decidable (UsersWF s.users ∧ ChansWF s.channels ∧ GamesWF s.games ∧
    UserChan s.users s.channels))

/-- No message in the batch is a `/syncstats` message. -/
def NonSyncOut (out : Out) : Prop :=
  ∀ p ∈ out, ∀ a b c d e, p.2 ≠ ServerMsg.syncStats a b c d e

/-! ### Concrete demonstration states -/

/-- The login event of user "foo" (id 1). -/
def fooLogin : TimedEvent :=
  (Event.newUser 1 (strBytes ("foo")) 77 (127, 0, 0, 1), 11, 0)

/-- "foo" requests to host "MyGame" with password "secret". -/
def fooHosts : TimedEvent :=
  (Event.command 1 (ClientCommand.hostGame (strBytes ("MyGame")) (strBytes ("secret"))), 12, 1)

/-- The login event of user "bar" (id 2). -/
def barLogin : TimedEvent :=
  (Event.newUser 2 (strBytes ("bar")) 77 (127, 0, 0, 2), 13, 2)

/-- The broker state with "foo" logged in. -/
def demoS1 : BrokerState := (runEvents initState [fooLogin]).getD initState

/-- The broker state with "foo" and "bar" logged in and "foo" hosting the
Requested game "MyGame". -/
def demoS3 : BrokerState := (runEvents initState [fooLogin, fooHosts, barLogin]).getD initState

/-- The result of processing bar's login on `demoS1`. -/
def demoStep3 : BrokerState × Out :=
  (step demoS1 (Event.newUser 2 (strBytes ("bar")) 77 (127, 0, 0, 2)) 13 2).getD
    (initState, [])

/-- The result of dispatching bar's login on `demoS1` (before housekeeping). -/
def demoDispatch3 : BrokerState × Out :=
  (dispatch demoS1 (Event.newUser 2 (strBytes ("bar")) 77 (127, 0, 0, 2)) 13 2).getD
    (initState, [])

/-- The Requested game "MyGame" as stored in `demoS3`. -/
def demoGame : Game :=
  { hostedBy := 1, hostIp := (127, 0, 0, 1), id := 0, gameVersion := 77,
    name := strBytes ("MyGame"), password := strBytes ("secret"),
    status := GameStatus.requested, createdAt := 1 }

/-- A joining user for the invite-token demonstration. -/
def demoUser : User :=
  ⟨2, strBytes ("bar"), Location.channel (strBytes ("General")), 77, (127, 0, 0, 2)⟩

/-- Dispatching a public message on `demoS3` at time 40 (before
housekeeping, at which point the Requested game is 39 seconds old). -/
def demoDispatch4 : BrokerState × Out :=
  (dispatch demoS3 (Event.command 2 (ClientCommand.send (strBytes ("hi")))) 14 40).getD
    (initState, [])

/-- The full step of the same event: the stale Requested game is swept. -/
def demoPair4 : BrokerState × Out :=
  (step demoS3 (Event.command 2 (ClientCommand.send (strBytes ("hi")))) 14 40).getD
    (initState, [])

/-! ## Theorems -/

theorem mem_sendToAll {byId : List (Nat × User)} {m : ServerMsg} {uid : Nat}
    {m' : ServerMsg} (h : (uid, m') ∈ sendToAll byId m) : m' = m := by
  unfold sendToAll at h
  obtain ⟨p, _, hp⟩ := List.mem_map.1 h
  exact (congrArg Prod.snd hp.symm : m' = m)

theorem sendToAll_mem {byId : List (Nat × User)} {m : ServerMsg} {p : Nat × User}
    (h : p ∈ byId) : (p.2.id, m) ∈ sendToAll byId m :=
  List.mem_map.2 ⟨p, h, rfl⟩

theorem mem_sendToLocation {byId : List (Nat × User)} {loc : Location} {m : ServerMsg}
    {uid : Nat} {m' : ServerMsg} (h : (uid, m') ∈ sendToLocation byId loc m) : m' = m := by
  unfold sendToLocation at h
  obtain ⟨p, _, hp⟩ := List.mem_filterMap.1 h
  by_cases hl : p.2.location = loc
  · rw [if_pos hl] at hp
    exact (congrArg Prod.snd (Option.some_inj.1 hp)).symm
  · rw [if_neg hl] at hp
    exact absurd hp (by simp)

theorem takeDropWhile_split (p : Nat → Bool) (xs ys : Bytes)
    (h1 : ∀ b ∈ xs, p b = true) (h2 : ∀ y t, ys = y :: t → p y = false) :
    (xs ++ ys).takeWhile p = xs ∧ (xs ++ ys).dropWhile p = ys := by
  induction xs with
  | nil =>
    cases ys with
    | nil => simp
    | cons y t => simp [List.takeWhile_cons, List.dropWhile_cons, h2 y t rfl]
  | cons x xs ih =>
    have hx : p x = true := h1 x (by simp)
    have hrec := ih (fun b hb => h1 b (by simp [hb]))
    simp [List.takeWhile_cons, List.dropWhile_cons, hx, hrec.1, hrec.2]

theorem escapeQuotes_id (p : Bytes) (h : ∀ b ∈ p, b ≠ 34) : escapeQuotes p = p := by
  induction p with
  | nil => rfl
  | cons b rest ih =>
    have hb : b ≠ 34 := h b (by simp)
    simp only [escapeQuotes, if_neg hb]
    exact congrArg (b :: ·) (ih fun c hc => h c (by simp [hc]))

theorem quotedParam_exact (p rest : Bytes) (h : ∀ b ∈ p, b ≠ 34) :
    quotedParam (34 :: (p ++ 34 :: rest)) = some (rest, p) := by
  have hs := takeDropWhile_split (fun b => b != 34) p (34 :: rest)
    (fun b hb => by simpa using h b hb) (by intro y t hyt; cases hyt; simp)
  simp only [quotedParam, hs.1, hs.2]

theorem multispace1_render (p : Bytes) (ps : List Bytes) :
    multispace1 (renderParams (p :: ps)) = some (34 :: (escapeQuotes p ++ 34 :: renderParams ps)) := by
  simp [renderParams, multispace1, isSpaceByte, List.dropWhile_cons]

theorem paramListLoop_render (ps : List Bytes) :
    ∀ fuel acc, (∀ p ∈ ps, ∀ b ∈ p, b ≠ 34) → ps.length < fuel →
      paramListLoop fuel (renderParams ps) acc = some ([], acc.reverse ++ ps) := by
  induction ps with
  | nil =>
    intro fuel acc h hf
    match fuel, hf with
    | fuel + 1, _ => simp [paramListLoop, renderParams, multispace1]
  | cons p ps ih =>
    intro fuel acc h hf
    match fuel, hf with
    | fuel + 1, hf =>
      have hq : ∀ b ∈ p, b ≠ 34 := h p (by simp)
      have he : escapeQuotes p = p := escapeQuotes_id p hq
      simp only [paramListLoop, multispace1_render, he, anyParam,
        quotedParam_exact p (renderParams ps) hq]
      rw [ih fuel (p :: acc) (fun q hq' b hb => h q (by simp [hq']) b hb)
        (Nat.lt_of_succ_lt_succ hf)]
      simp

theorem renderParams_length (ps : List Bytes) : ps.length ≤ (renderParams ps).length := by
  induction ps with
  | nil => simp [renderParams]
  | cons p ps ih => simp [renderParams]; omega

theorem toAsciiLower_lower (v : Bytes) (hv : ∀ b ∈ v, 97 ≤ b ∧ b ≤ 122) :
    toAsciiLower v = v := by
  induction v with
  | nil => rfl
  | cons b rest ih =>
    have hb := hv b (by simp)
    have : toLowerByte b = b := by unfold toLowerByte; rw [if_neg]; omega
    simp only [toAsciiLower, List.map_cons, this]
    exact congrArg (b :: ·) (ih fun c hc => hv c (by simp [hc]))

/-- Claim C6 counterexample: rendering the command with verb `A` and the single
one-byte parameter `"` and re-parsing the rendered line yields the lowercased
verb `a` and the escaped parameter bytes `%22`, not the original verb and
token sequence. -/
theorem c6_counterexample :
    tryParseRawCommand ((prepareCommand [47, 65] [[34]]).dropLast) =
        some { command := [97], params := [[37, 50, 50]] } ∧
      tryParseRawCommand ((prepareCommand [47, 65] [[34]]).dropLast) ≠
        some { command := [65], params := [[34]] } := by
  constructor
  · decide
  · decide

/-- Claim C6 (amended): for every command whose verb is `/` followed by
lowercase ASCII letters and whose parameter tokens (which may contain spaces)
contain no double-quote byte and no NUL byte, rendering with
`prepare_command` and re-parsing the rendered line (the bytes before the NUL
terminator) with `try_parse_raw_command` yields back exactly the original
verb and token sequence; a parameter's embedded double quotes are rendered as
`%22` and re-parse as the literal bytes `%22`, and an upper-case verb
re-parses lowercased. -/
theorem c6_round_trip (v : Bytes) (ps : List Bytes)
    (hv : ∀ b ∈ v, 97 ≤ b ∧ b ≤ 122)
    (hp : ∀ p ∈ ps, ∀ b ∈ p, b ≠ 34 ∧ b ≠ 0) :
    tryParseRawCommand ((prepareCommand (47 :: v) ps).dropLast) =
      some { command := v, params := ps } := by
  have hq : ∀ p ∈ ps, ∀ b ∈ p, b ≠ 34 := fun p hp' b hb => (hp p hp' b hb).1
  have hdrop : (prepareCommand (47 :: v) ps).dropLast = 47 :: (v ++ renderParams ps) := by
    have h2 : (47 : Nat) :: v ++ renderParams ps ++ [0] =
        ((47 :: (v ++ renderParams ps)) ++ [0]) := by simp
    rw [prepareCommand, h2, List.dropLast_append_cons]
    simp
  rw [hdrop]
  have hsplit := takeDropWhile_split isAlphaByte v (renderParams ps)
    (fun b hb => by
      have := hv b hb
      simp [isAlphaByte]
      omega)
    (by
      intro y t hyt
      cases ps with
      | nil => simp [renderParams] at hyt
      | cons p ps' => simp [renderParams] at hyt; simp [isAlphaByte, ← hyt.1])
  simp only [tryParseRawCommand, pCommand, hsplit.1, hsplit.2]
  cases ps with
  | nil =>
    simp [renderParams, multispace1, multispace0, toAsciiLower_lower v hv]
  | cons p ps' =>
    have hq1 : ∀ b ∈ p, b ≠ 34 := hq p (by simp)
    have hq2 : ∀ q ∈ ps', ∀ b ∈ q, b ≠ 34 := fun q hq' b hb => hq q (by simp [hq']) b hb
    have hlen : ps'.length < (47 :: (v ++ renderParams (p :: ps'))).length + 1 := by
      have h1 := renderParams_length (p :: ps')
      simp only [List.length_cons, List.length_append] at h1 ⊢
      omega
    have hpl : paramList ((47 :: (v ++ renderParams (p :: ps'))).length + 1)
        (34 :: (escapeQuotes p ++ 34 :: renderParams ps')) = some ([], p :: ps') := by
      rw [escapeQuotes_id p hq1]
      simp only [paramList, anyParam, quotedParam_exact p (renderParams ps') hq1]
      rw [paramListLoop_render ps' _ [p] hq2 hlen]
      simp
    simp only [multispace1_render, hpl]
    simp [multispace0, toAsciiLower_lower v hv]

/-- Witness for the amended C6 round trip at a concrete command. -/
theorem c6_round_trip_witness :
    (∀ b ∈ [109, 115, 103], 97 ≤ b ∧ b ≤ 122) ∧
      tryParseRawCommand
          ((prepareCommand (47 :: [109, 115, 103]) [[116, 111, 32, 120], [37, 50, 50]]).dropLast) =
        some { command := [109, 115, 103], params := [[116, 111, 32, 120], [37, 50, 50]] } :=
  ⟨by decide, c6_round_trip _ _ (by decide) (by decide)⟩

/-- Claim C4: a handshake frame whose 32-bit little-endian length prefix
exceeds 4096 is rejected as malformed (a connection-fatal error); a frame
whose prefix is exactly 4096, all of whose bytes are present, and whose
content is well formed (the decompression/payload interpretation succeeds)
decodes successfully, consuming exactly the 4096 bytes. -/
theorem c4_handshake_length_limit {α : Type} :
    (∀ (interp : Bytes → Option α) (b0 b1 b2 b3 : Nat) (rest : Bytes),
      leU32 b0 b1 b2 b3 > 4096 →
      tryParseHandshake interp (b0 :: b1 :: b2 :: b3 :: rest) = .err) ∧
    (∀ (interp : Bytes → Option α) (b0 b1 b2 b3 : Nat) (rest : Bytes) (m : α),
      leU32 b0 b1 b2 b3 = 4096 →
      4096 ≤ (b0 :: b1 :: b2 :: b3 :: rest : Bytes).length →
      interp (((b0 :: b1 :: b2 :: b3 :: rest : Bytes).take 4096).drop 4) = some m →
      tryParseHandshake interp (b0 :: b1 :: b2 :: b3 :: rest) =
        .ok (some m) ((b0 :: b1 :: b2 :: b3 :: rest : Bytes).drop 4096)) := by
  constructor
  · intro interp b0 b1 b2 b3 rest hgt
    simp only [tryParseHandshake, if_pos hgt]
  · intro interp b0 b1 b2 b3 rest m heq hlen hint
    simp only [tryParseHandshake, heq]
    rw [if_neg (by omega), if_neg (by omega), hint]

/-- Witness for C4: a prefix of 4097 fails; a well-formed frame of exactly
4096 bytes with prefix 4096 decodes. -/
theorem c4_handshake_length_limit_witness :
    tryParseHandshake (fun b : Bytes => some b) [1, 16, 0, 0] = FrameParse.err ∧
      tryParseHandshake (fun b : Bytes => some b)
          (0 :: 16 :: 0 :: 0 :: List.replicate 4092 7) =
        .ok (some (((0 :: 16 :: 0 :: 0 :: List.replicate 4092 7 : Bytes).take 4096).drop 4))
          ((0 :: 16 :: 0 :: 0 :: List.replicate 4092 7 : Bytes).drop 4096) :=
  ⟨(c4_handshake_length_limit).1 _ 1 16 0 0 [] (by decide),
   (c4_handshake_length_limit).2 _ 0 16 0 0 (List.replicate 4092 7) _ (by decide)
     (by norm_num [List.length_replicate]) rfl⟩

theorem lookupKey_append {κ α : Type} [DecidableEq κ] (k : κ) (l₁ l₂ : List (κ × α)) :
    lookupKey k (l₁ ++ l₂) =
      match lookupKey k l₁ with
      | some v => some v
      | none => lookupKey k l₂ := by
  induction l₁ with
  | nil => simp [lookupKey]
  | cons p rest ih =>
    obtain ⟨k', v⟩ := p
    by_cases hk : k' = k
    · simp [lookupKey, hk]
    · simp [lookupKey, hk, ih]

theorem eraseKey_of_lookup_none {κ α : Type} [DecidableEq κ] {k : κ} {l : List (κ × α)}
    (h : lookupKey k l = none) : eraseKey k l = l := by
  induction l with
  | nil => rfl
  | cons p rest ih =>
    obtain ⟨k', v⟩ := p
    unfold lookupKey at h
    by_cases hk : k' = k
    · rw [if_pos hk] at h; exact absurd h (by simp)
    · rw [if_neg hk] at h
      unfold eraseKey
      rw [if_neg hk, ih h]

theorem lookupKey_insert_of_none {κ α : Type} [DecidableEq κ] {k : κ} {l : List (κ × α)}
    (v : α) (h : lookupKey k l = none) : lookupKey k (insertKey k v l) = some v := by
  unfold insertKey
  rw [eraseKey_of_lookup_none h, lookupKey_append, h]
  simp [lookupKey]

theorem update_out_shape (users : Users) (u : User) {uid : Nat} {m : ServerMsg}
    (h : (uid, m) ∈ (users.update u).2) :
    (∃ un vi og, m = ServerMsg.userJoined un vi og) ∨
      (∃ un d, m = ServerMsg.userLeft un d) := by
  unfold Users.update Users.insert at h
  split at h
  · exact Or.inl ⟨_, _, _, mem_sendToLocation h⟩
  · split at h
    · simp at h
    · rcases List.mem_append.1 h with h1 | h2
      · exact Or.inl ⟨_, _, _, mem_sendToLocation h1⟩
      · exact Or.inr ⟨_, _, mem_sendToLocation h2⟩

/-- Claim C2 counterexample: with user "foo" live, a NewUser event carrying
username "foo" again is not dropped silently — the handler sends a message
to the new connection. -/
theorem c2_counterexample :
    (handleNewUser demoS1 2 (strBytes ("foo")) 77 (9, 9, 9, 9)).2 ≠ [] := by decide

/-- Claim C2 (amended): when a NewUser event carries a username that is
already live (case-insensitive match with an existing user), the broker
drops the new connection without inserting it — no broker state is modified
— but not silently: exactly one Reject message with reason "Already logged
in" is sent to the new connection. -/
theorem c2_duplicate_login (s : BrokerState) (id : Nat) (username : Bytes)
    (gameVersion : Nat) (ipAddr : Ipv4) (u : User)
    (hdup : s.users.byUsername username = some u) :
    handleNewUser s id username gameVersion ipAddr =
      (s, [(id, ServerMsg.reject (strBytes ("Already logged in")))]) := by
  simp only [handleNewUser, hdup]

/-- Witness for C2 at a concrete duplicate (case-insensitive) login. -/
theorem c2_duplicate_login_witness :
    demoS1.users.byUsername (strBytes ("FOO")) =
        some (User.mk 1 (strBytes ("foo")) (Location.channel (strBytes ("General"))) 77
          (127, 0, 0, 1)) ∧
      handleNewUser demoS1 2 (strBytes ("FOO")) 77 (9, 9, 9, 9) =
        (demoS1, [(2, ServerMsg.reject (strBytes ("Already logged in")))]) :=
  ⟨by decide,
   c2_duplicate_login demoS1 2 (strBytes ("FOO")) 77 (9, 9, 9, 9)
     (User.mk 1 (strBytes ("foo")) (Location.channel (strBytes ("General"))) 77 (127, 0, 0, 1))
     (by decide)⟩

/-- Claim C5: a plays command whose game name is non-empty and consists only
of ASCII letters, digits, `-`, `_`, `+`, `.`, `|` and space passes name
validation (no "Invalid game name" error is sent), and when no game with
that canonical key exists a new game in Requested status — zero invite
GUID, stamped with the host and the current time — is created under that
key. -/
theorem c5_host_game_validation (users : Users) (games : Games) (user : User)
    (gameName passwordOrGuid : Bytes) (freshGuid now : Nat)
    (hne : gameName ≠ [])
    (hchars : ∀ b ∈ gameName, b ∈ ALLOWED_GAME_NAME_CHARS) :
    (∀ uid, (uid, ServerMsg.errorMsg (strBytes ("Invalid game name"))) ∉
      (hostGame users games user gameName passwordOrGuid freshGuid now).2.2) ∧
    (games.get gameName = none →
      ∃ g : Game,
        (hostGame users games user gameName passwordOrGuid freshGuid now).2.1.get gameName
            = some g ∧
          g.status = .requested ∧ g.id = 0 ∧ g.name = gameName ∧
          g.hostedBy = user.id ∧ g.createdAt = now) := by
  have hvalid : onlyAllowedCharsNotEmpty gameName ALLOWED_GAME_NAME_CHARS = true := by
    unfold onlyAllowedCharsNotEmpty
    simp only [Bool.and_eq_true, Bool.not_eq_true', List.all_eq_true]
    constructor
    · simp [List.isEmpty_iff, hne]
    · intro b hb
      simpa using hchars b hb
  constructor
  · intro uid hmem
    unfold hostGame at hmem
    rw [if_neg (by simp [hvalid])] at hmem
    split at hmem
    · unfold Games.createGame at hmem
      simp only [List.mem_singleton, Prod.mk.injEq] at hmem
      exact absurd hmem.2 (by simp)
    · rename_i g hg
      split at hmem
      · simp only [List.mem_singleton, Prod.mk.injEq, ServerMsg.errorMsg.injEq] at hmem
        exact absurd hmem.2 (by decide)
      · split at hmem
        · simp only [List.mem_singleton, Prod.mk.injEq, ServerMsg.errorMsg.injEq] at hmem
          exact absurd hmem.2 (by decide)
        · split at hmem
          · rcases List.mem_append.1 hmem with h1 | h2
            · unfold Games.openGame at h1
              rw [hg] at h1
              exact absurd (mem_sendToAll h1) (by simp)
            · rcases update_out_shape _ _ h2 with ⟨_, _, _, hshape⟩ | ⟨_, _, hshape⟩ <;>
                exact absurd hshape (by simp)
          · unfold Games.startGame at hmem
            rw [hg] at hmem
            exact absurd (mem_sendToAll hmem) (by simp)
          · simp at hmem
  · intro hvac
    unfold hostGame
    rw [if_neg (by simp [hvalid])]
    unfold Games.get at hvac
    unfold Games.get Games.createGame
    rw [hvac]
    exact ⟨_, lookupKey_insert_of_none _ hvac, rfl, rfl, rfl, rfl, rfl⟩

/-- Witness for C5: hosting "My Game+1.0|x" (space and `+.|` included) in a
fresh broker passes validation and creates a Requested game. -/
theorem c5_host_game_validation_witness :
    (strBytes ("My Game+1.0|x") ≠ ([] : Bytes)) ∧
      ((∀ uid, (uid, ServerMsg.errorMsg (strBytes ("Invalid game name"))) ∉
          (hostGame initState.users initState.games
            (User.mk 1 (strBytes ("foo")) Location.nowhere 77 (127, 0, 0, 1))
            (strBytes ("My Game+1.0|x")) (strBytes ("secret")) 42 5).2.2) ∧
        (initState.games.get (strBytes ("My Game+1.0|x")) = none →
          ∃ g : Game,
            (hostGame initState.users initState.games
                (User.mk 1 (strBytes ("foo")) Location.nowhere 77 (127, 0, 0, 1))
                (strBytes ("My Game+1.0|x")) (strBytes ("secret")) 42 5).2.1.get
                  (strBytes ("My Game+1.0|x")) = some g ∧
              g.status = .requested ∧ g.id = 0 ∧ g.name = strBytes ("My Game+1.0|x") ∧
              g.hostedBy = 1 ∧ g.createdAt = 5)) :=
  ⟨by decide,
   c5_host_game_validation initState.users initState.games
     (User.mk 1 (strBytes ("foo")) Location.nowhere 77 (127, 0, 0, 1))
     (strBytes ("My Game+1.0|x")) (strBytes ("secret")) 42 5 (by decide) (by decide)⟩

/-- Claim C8: an empty command frame — a NUL terminator with no preceding
bytes — is accepted: the framing layer yields the empty line, the empty line
maps to the no-op command, and dispatching the no-op command leaves broker
state unchanged and sends nothing back (in particular no /error). -/
theorem c8_empty_frame_noop :
    (∀ rest : Bytes, commandFrameSplit (0 :: rest) = some ([], rest)) ∧
      clientCommandOfLine [] = ClientCommand.noOp ∧
      ∀ (s : BrokerState) (uid freshGuid now : Nat),
        handleClientCommand s uid ClientCommand.noOp freshGuid now = some (s, []) := by
  refine ⟨fun rest => rfl, rfl, fun s uid f n => ?_⟩
  unfold handleClientCommand
  cases h : s.users.byUserId uid <;> rfl

/-- Claim C10 evaluation: the private-message handler is not total in the
target — on the empty target, and on a target whose first character is the
two-byte UTF-8 character `é`, the `&target[0..1]` slice of
`Broker::private_message` panics (modelled as `none`) instead of producing a
delivery or an error reply. -/
theorem c10_private_message_not_total :
    ∀ (s : BrokerState) (user : User) (message : Bytes),
      privateMessage s user [] message = none ∧
      privateMessage s user [195, 169] message = none := by
  intro s user message
  exact ⟨rfl, rfl⟩

theorem snd_eq_of_mem_sendToAll {byId : List (Nat × User)} {m : ServerMsg}
    {p : Nat × ServerMsg} (h : p ∈ sendToAll byId m) : p.2 = m := by
  obtain ⟨q, _, hq⟩ := List.mem_map.1 h
  rw [← hq]

theorem snd_eq_of_mem_sendToLocation {byId : List (Nat × User)} {loc : Location}
    {m : ServerMsg} {p : Nat × ServerMsg} (h : p ∈ sendToLocation byId loc m) : p.2 = m := by
  obtain ⟨q, _, hq⟩ := List.mem_filterMap.1 h
  by_cases hl : q.2.location = loc
  · rw [if_pos hl] at hq
    rw [← Option.some_inj.1 hq]
  · rw [if_neg hl] at hq
    exact absurd hq (by simp)

theorem nonSync_nil : NonSyncOut [] := by
  intro p hp
  simp at hp

theorem nonSync_append {o1 o2 : Out} (h1 : NonSyncOut o1) (h2 : NonSyncOut o2) :
    NonSyncOut (o1 ++ o2) := by
  intro p hp
  rcases List.mem_append.1 hp with h | h
  exacts [h1 p h, h2 p h]

theorem nonSync_cons {q : Nat × ServerMsg} {o : Out}
    (hq : ∀ a b c d e, q.2 ≠ ServerMsg.syncStats a b c d e) (h : NonSyncOut o) :
    NonSyncOut (q :: o) := by
  intro p hp
  rcases List.mem_cons.1 hp with h' | h'
  · rw [h']; exact hq
  · exact h p h'

theorem nonSync_singleton {uid : Nat} {m : ServerMsg}
    (hm : ∀ a b c d e, m ≠ ServerMsg.syncStats a b c d e) : NonSyncOut [(uid, m)] :=
  nonSync_cons hm nonSync_nil

theorem nonSync_sendToAll {byId : List (Nat × User)} {m : ServerMsg}
    (hm : ∀ a b c d e, m ≠ ServerMsg.syncStats a b c d e) :
    NonSyncOut (sendToAll byId m) := by
  intro p hp
  rw [snd_eq_of_mem_sendToAll hp]
  exact hm

theorem nonSync_sendToLocation {byId : List (Nat × User)} {loc : Location} {m : ServerMsg}
    (hm : ∀ a b c d e, m ≠ ServerMsg.syncStats a b c d e) :
    NonSyncOut (sendToLocation byId loc m) := by
  intro p hp
  rw [snd_eq_of_mem_sendToLocation hp]
  exact hm

theorem nonSync_of_map {β : Type} (l : List β) (f : β → Nat) (g : β → ServerMsg)
    (hg : ∀ x a b c d e, g x ≠ ServerMsg.syncStats a b c d e) :
    NonSyncOut (l.map (fun x => (f x, g x))) := by
  intro p hp a b c d e
  obtain ⟨x, _, hx⟩ := List.mem_map.1 hp
  rw [← hx]
  exact hg x a b c d e

theorem nonSync_insert (users : Users) (u : User) : NonSyncOut (users.insert u).2 :=
  nonSync_sendToLocation (by simp)

theorem nonSync_update (users : Users) (u : User) : NonSyncOut (users.update u).2 := by
  intro p hp a b c d e
  rcases update_out_shape users u hp with ⟨x, y, z, h⟩ | ⟨x, y, h⟩ <;> rw [h] <;> simp

theorem nonSync_remove (users : Users) (id : Nat) : NonSyncOut (users.remove id).2 := by
  cases h : lookupKey id users.byId with
  | none => intro p hp; simp [Users.remove, h] at hp
  | some u =>
    intro p hp a b c d e
    simp only [Users.remove, h] at hp
    rw [snd_eq_of_mem_sendToLocation hp]
    simp

theorem nonSync_getOrCreate (channels : Channels) (users : Users) (name : Bytes) :
    NonSyncOut (channels.getOrCreate users name).2.1 := by
  cases h : lookupKey (toAsciiLower name) channels.byName with
  | some c => intro p hp; simp [Channels.getOrCreate, h] at hp
  | none =>
    intro p hp a b c d e
    simp only [Channels.getOrCreate, h] at hp
    rw [snd_eq_of_mem_sendToAll hp]
    simp

theorem nonSync_removeChannel (channels : Channels) (users : Users) (name : Bytes) :
    NonSyncOut (channels.removeChannel users name).2 := by
  cases h : lookupKey (toAsciiLower name) channels.byName with
  | none => intro p hp; simp [Channels.removeChannel, h] at hp
  | some c =>
    intro p hp a b c d e
    simp only [Channels.removeChannel, h] at hp
    rw [snd_eq_of_mem_sendToAll hp]
    simp

theorem nonSync_chanSweep (users : Users) (names : List Bytes) :
    ∀ (channels : Channels) (acc : Out), NonSyncOut acc →
      NonSyncOut ((names.foldl (Channels.removeStep users) (channels, acc)).2) := by
  induction names with
  | nil => intro channels acc h; exact h
  | cons n ns ih =>
    intro channels acc h
    simp only [List.foldl_cons]
    exact ih _ _ (nonSync_append h (nonSync_removeChannel _ _ _))

theorem nonSync_chanHK (channels : Channels) (users : Users) :
    NonSyncOut (channels.checkRemoveEmpty users).2 :=
  nonSync_chanSweep users _ channels [] nonSync_nil

theorem nonSync_removeGame (games : Games) (users : Users) (name : Bytes) :
    NonSyncOut (games.removeGame users name).2 := by
  cases h : lookupKey (toAsciiLower name) games.byName with
  | none => intro p hp; simp [Games.removeGame, h] at hp
  | some g =>
    intro p hp a b c d e
    simp only [Games.removeGame, h] at hp
    by_cases hst : g.status = GameStatus.opened
    · rw [if_pos hst] at hp
      rw [snd_eq_of_mem_sendToAll hp]
      simp
    · rw [if_neg hst] at hp
      simp at hp

theorem nonSync_gameSweep (users : Users) (now : Nat) (names : List Bytes) :
    ∀ (games : Games) (acc : Out), NonSyncOut acc →
      NonSyncOut ((names.foldl (Games.removeStep users) (games, acc)).2) := by
  induction names with
  | nil => intro games acc h; exact h
  | cons n ns ih =>
    intro games acc h
    simp only [List.foldl_cons]
    exact ih _ _ (nonSync_append h (nonSync_removeGame _ _ _))

theorem nonSync_gameHK (games : Games) (users : Users) (now : Nat) :
    NonSyncOut (games.checkRemoveEmpty users now).2 :=
  nonSync_gameSweep users now _ games [] nonSync_nil

theorem nonSync_createGame (games : Games) (user : User) (name password : Bytes)
    (freshGuid now : Nat) : NonSyncOut (games.createGame user name password freshGuid now).2 :=
  nonSync_singleton (by simp)

theorem nonSync_openGame (games : Games) (users : Users) (name : Bytes) (guid : Nat) :
    NonSyncOut (games.openGame users name guid).2 := by
  cases h : games.get name with
  | none => intro p hp; simp [Games.openGame, h] at hp
  | some g =>
    intro p hp a b c d e
    simp only [Games.openGame, h] at hp
    rw [snd_eq_of_mem_sendToAll hp]
    simp

theorem nonSync_startGame (games : Games) (users : Users) (name : Bytes) :
    NonSyncOut (games.startGame users name).2 := by
  cases h : games.get name with
  | none => intro p hp; simp [Games.startGame, h] at hp
  | some g =>
    intro p hp a b c d e
    simp only [Games.startGame, h] at hp
    rw [snd_eq_of_mem_sendToAll hp]
    simp

theorem nonSync_publicMessage (users : Users) (user : User) (message : Bytes) :
    NonSyncOut (publicMessage users user message) :=
  nonSync_sendToLocation (by simp)

theorem nonSync_privateMessage (s : BrokerState) (user : User) (target message : Bytes)
    (out : Out) (h : privateMessage s user target message = some out) : NonSyncOut out := by
  unfold privateMessage at h
  split at h
  · exact absurd h (by simp)
  · split at h
    · split at h
      · rw [← Option.some_inj.1 h]
        exact nonSync_cons (by simp) (nonSync_sendToLocation (by simp))
      · rw [← Option.some_inj.1 h]
        exact nonSync_singleton (by simp)
    · split at h
      · split at h
        · rw [← Option.some_inj.1 h]
          exact nonSync_cons (by simp) (nonSync_sendToLocation (by simp))
        · rw [← Option.some_inj.1 h]
          exact nonSync_singleton (by simp)
      · split at h
        · rw [← Option.some_inj.1 h]
          exact nonSync_cons (by simp) (nonSync_cons (by simp) nonSync_nil)
        · rw [← Option.some_inj.1 h]
          exact nonSync_singleton (by simp)

theorem nonSync_joinChannel (users : Users) (channels : Channels) (user : User)
    (channelName : Bytes) : NonSyncOut (joinChannel users channels user channelName).2.2 := by
  unfold joinChannel
  split
  · exact nonSync_singleton (by simp)
  · dsimp only
    split
    · exact nonSync_getOrCreate _ _ _
    · refine nonSync_append (nonSync_append (nonSync_getOrCreate _ _ _)
        (nonSync_cons (by simp) ?_)) (nonSync_update _ _)
      exact nonSync_of_map _ (fun _ => user.id)
        (fun u : User => ServerMsg.newUserMsg u.username) (by simp)

theorem nonSync_hostGame (users : Users) (games : Games) (user : User)
    (gameName passwordOrGuid : Bytes) (freshGuid now : Nat) :
    NonSyncOut (hostGame users games user gameName passwordOrGuid freshGuid now).2.2 := by
  unfold hostGame
  split
  · exact nonSync_singleton (by simp)
  · split
    · exact nonSync_createGame _ _ _ _ _ _
    · split
      · exact nonSync_singleton (by simp)
      · split
        · exact nonSync_singleton (by simp)
        · split
          · exact nonSync_append (nonSync_openGame _ _ _ _) (nonSync_update _ _)
          · exact nonSync_startGame _ _ _
          · exact nonSync_nil

theorem nonSync_joinGame (users : Users) (games : Games) (user : User)
    (gameName password : Bytes) :
    NonSyncOut (joinGame users games user gameName password).2 := by
  unfold joinGame
  split
  · exact nonSync_singleton (by simp)
  · split
    · split
      · exact nonSync_update _ _
      · exact nonSync_nil
    · split
      · exact nonSync_singleton (by simp)
      · exact nonSync_singleton (by simp)

theorem nonSync_handleClientCommand (s : BrokerState) (uid : Nat) (cmd : ClientCommand)
    (freshGuid now : Nat) (s' : BrokerState) (out : Out)
    (h : handleClientCommand s uid cmd freshGuid now = some (s', out)) : NonSyncOut out := by
  unfold handleClientCommand at h
  split at h
  · simp only [Option.some.injEq, Prod.mk.injEq] at h
    rw [← h.2]
    exact nonSync_nil
  · rename_i user hu
    split at h
    · simp only [Option.some.injEq, Prod.mk.injEq] at h
      rw [← h.2]
      exact nonSync_publicMessage _ _ _
    · rename_i target message
      cases hp : privateMessage s user target message with
      | none => rw [hp] at h; exact absurd h (by simp)
      | some o =>
        rw [hp] at h
        simp only [Option.map_some', Option.some.injEq, Prod.mk.injEq] at h
        rw [← h.2]
        exact nonSync_privateMessage _ _ _ _ _ hp
    · simp only [Option.some.injEq, Prod.mk.injEq] at h
      rw [← h.2]
      exact nonSync_joinChannel _ _ _ _
    · simp only [Option.some.injEq, Prod.mk.injEq] at h
      rw [← h.2]
      exact nonSync_hostGame _ _ _ _ _ _ _
    · simp only [Option.some.injEq, Prod.mk.injEq] at h
      rw [← h.2]
      exact nonSync_joinGame _ _ _ _ _
    · simp only [Option.some.injEq, Prod.mk.injEq] at h
      rw [← h.2]
      exact nonSync_nil
    · simp only [Option.some.injEq, Prod.mk.injEq] at h
      rw [← h.2]
      exact nonSync_singleton (by simp)
    · simp only [Option.some.injEq, Prod.mk.injEq] at h
      rw [← h.2]
      exact nonSync_singleton (by simp)

theorem nonSync_handleNewUser (s : BrokerState) (id : Nat) (username : Bytes)
    (gameVersion : Nat) (ipAddr : Ipv4) :
    NonSyncOut (handleNewUser s id username gameVersion ipAddr).2 := by
  unfold handleNewUser
  split
  · exact nonSync_singleton (by simp)
  · dsimp only
    split
    · refine nonSync_append (nonSync_append (nonSync_append (nonSync_append
        (nonSync_singleton (by simp)) ?_) ?_) (nonSync_insert _ _))
        (nonSync_joinChannel _ _ _ _)
      · exact nonSync_of_map _ (fun _ => id)
          (fun q : Bytes × Channel => ServerMsg.newChannel q.2.name) (by simp)
      · exact nonSync_of_map _ (fun _ => id)
          (fun q : Bytes × Game => ServerMsg.newGameMsg q.2.name q.2.id) (by simp)
    · refine nonSync_append (nonSync_append (nonSync_append
        (nonSync_singleton (by simp)) ?_) ?_) (nonSync_insert _ _)
      · exact nonSync_of_map _ (fun _ => id)
          (fun q : Bytes × Channel => ServerMsg.newChannel q.2.name) (by simp)
      · exact nonSync_of_map _ (fun _ => id)
          (fun q : Bytes × Game => ServerMsg.newGameMsg q.2.name q.2.id) (by simp)

theorem nonSync_dispatch (s : BrokerState) (e : Event) (freshGuid now : Nat)
    (r : BrokerState × Out) (h : dispatch s e freshGuid now = some r) : NonSyncOut r.2 := by
  cases e with
  | newUser id un gv ip =>
    unfold dispatch at h
    rw [← Option.some_inj.1 h]
    exact nonSync_handleNewUser _ _ _ _ _
  | command id cmd =>
    unfold dispatch at h
    exact nonSync_handleClientCommand s id cmd freshGuid now r.1 r.2 h
  | dropClient id =>
    unfold dispatch at h
    rw [← Option.some_inj.1 h]
    exact nonSync_remove _ _

theorem dispatch_lastStats {s : BrokerState} {e : Event} {freshGuid now : Nat}
    {r : BrokerState × Out} (h : dispatch s e freshGuid now = some r) :
    r.1.lastStats = s.lastStats := by
  cases e with
  | newUser id un gv ip =>
    have h2 : some (handleNewUser s id un gv ip) = some r := h
    rw [← Option.some_inj.1 h2]
    unfold handleNewUser
    split
    · rfl
    · dsimp only
      split <;> rfl
  | command id cmd =>
    have h2 : handleClientCommand s id cmd freshGuid now = some r := h
    unfold handleClientCommand at h2
    split at h2
    · rw [← Option.some_inj.1 h2]
    · rename_i user hu
      split at h2
      · rw [← Option.some_inj.1 h2]
      · rename_i target message
        cases hp : privateMessage s user target message with
        | none => rw [hp] at h2; exact absurd h2 (by simp)
        | some o =>
          rw [hp] at h2
          simp only [Option.map_some', Option.some.injEq] at h2
          rw [← h2]
      · rw [← Option.some_inj.1 h2]
      · rw [← Option.some_inj.1 h2]
      · rw [← Option.some_inj.1 h2]
      · rw [← Option.some_inj.1 h2]
      · rw [← Option.some_inj.1 h2]
      · rw [← Option.some_inj.1 h2]
  | dropClient id =>
    have h2 : some (({ s with users := (s.users.remove id).1 } : BrokerState),
        (s.users.remove id).2) = some r := h
    rw [← Option.some_inj.1 h2]

theorem housekeeping_users (s : BrokerState) (now : Nat) :
    (housekeeping s now).1.users = s.users := rfl

theorem housekeeping_lastStats (s : BrokerState) (now : Nat) :
    (housekeeping s now).1.lastStats = computeStats (housekeeping s now).1 := rfl

theorem housekeeping_out (s : BrokerState) (now : Nat) :
    (housekeeping s now).2 =
      (s.channels.checkRemoveEmpty s.users).2 ++ (s.games.checkRemoveEmpty s.users now).2 ++
        (if computeStats (housekeeping s now).1 ≠ s.lastStats then
          sendToAll s.users.byId
            (ServerMsg.syncStats (computeStats (housekeeping s now).1).usersTotal
              (computeStats (housekeeping s now).1).usersOnline
              (computeStats (housekeeping s now).1).channelsTotal
              (computeStats (housekeeping s now).1).gamesTotal
              (computeStats (housekeeping s now).1).gamesOpen)
        else []) := rfl

/-- Claim C3: after every event the broker stores the freshly recomputed
stats snapshot, and a /syncstats message is broadcast to all users if and
only if at least one counter changed from the previous snapshot. -/
theorem c3_stats_sync (s : BrokerState) (e : Event) (freshGuid now : Nat)
    (s' : BrokerState) (out : Out)
    (h : step s e freshGuid now = some (s', out)) :
    s'.lastStats = computeStats s' ∧
      (computeStats s' ≠ s.lastStats →
        ∀ p ∈ s'.users.byId,
          (p.2.id, ServerMsg.syncStats (computeStats s').usersTotal
            (computeStats s').usersOnline (computeStats s').channelsTotal
            (computeStats s').gamesTotal (computeStats s').gamesOpen) ∈ out) ∧
      (computeStats s' = s.lastStats →
        ∀ uid a b c d e', (uid, ServerMsg.syncStats a b c d e') ∉ out) := by
  unfold step at h
  cases hd : dispatch s e freshGuid now with
  | none => rw [hd] at h; exact absurd h (by simp)
  | some r =>
    rw [hd] at h
    simp only [Option.map_some', Option.some.injEq] at h
    have hs' : s' = (housekeeping r.1 now).1 := (congrArg Prod.fst h).symm
    have hout : out = r.2 ++ (housekeeping r.1 now).2 := (congrArg Prod.snd h).symm
    have hls : r.1.lastStats = s.lastStats := dispatch_lastStats hd
    subst hs'
    subst hout
    refine ⟨housekeeping_lastStats r.1 now, ?_, ?_⟩
    · intro hne p hp
      apply List.mem_append_right
      rw [housekeeping_out]
      apply List.mem_append_right
      rw [if_pos (by rw [hls]; exact hne)]
      exact sendToAll_mem hp
    · intro heq uid a b c d e' hmem
      rcases List.mem_append.1 hmem with h1 | h2
      · exact nonSync_dispatch s e freshGuid now r hd _ h1 a b c d e' rfl
      · rw [housekeeping_out] at h2
        rcases List.mem_append.1 h2 with h3 | h4
        · rcases List.mem_append.1 h3 with h5 | h6
          · exact nonSync_chanHK _ _ _ h5 a b c d e' rfl
          · exact nonSync_gameHK _ _ _ _ h6 a b c d e' rfl
        · rw [if_neg (by rw [hls]; simp [heq])] at h4
          exact absurd h4 (by simp)

/-- Witness for C3: bar's login on the one-user state changes the counters,
so a /syncstats with the new snapshot reaches every user. -/
theorem c3_stats_sync_witness :
    (step demoS1 (Event.newUser 2 (strBytes ("bar")) 77 (127, 0, 0, 2)) 13 2 =
        some (demoStep3.1, demoStep3.2)) ∧
      (demoStep3.1.lastStats = computeStats demoStep3.1 ∧
        (computeStats demoStep3.1 ≠ demoS1.lastStats →
          ∀ p ∈ demoStep3.1.users.byId,
            (p.2.id, ServerMsg.syncStats (computeStats demoStep3.1).usersTotal
              (computeStats demoStep3.1).usersOnline (computeStats demoStep3.1).channelsTotal
              (computeStats demoStep3.1).gamesTotal (computeStats demoStep3.1).gamesOpen) ∈
              demoStep3.2) ∧
        (computeStats demoStep3.1 = demoS1.lastStats →
          ∀ uid a b c d e', (uid, ServerMsg.syncStats a b c d e') ∉ demoStep3.2)) :=
  ⟨by decide,
   c3_stats_sync demoS1 (Event.newUser 2 (strBytes ("bar")) 77 (127, 0, 0, 2)) 13 2
     demoStep3.1 demoStep3.2 (by decide)⟩

theorem lookupKey_cons {κ α : Type} [DecidableEq κ] (k k0 : κ) (v0 : α)
    (rest : List (κ × α)) :
    lookupKey k ((k0, v0) :: rest) = if k0 = k then some v0 else lookupKey k rest := rfl

theorem eraseKey_cons {κ α : Type} [DecidableEq κ] (k k0 : κ) (v0 : α)
    (rest : List (κ × α)) :
    eraseKey k ((k0, v0) :: rest) =
      if k0 = k then rest else (k0, v0) :: eraseKey k rest := rfl

theorem lookupKey_mem {κ α : Type} [DecidableEq κ] {k : κ} {l : List (κ × α)} {v : α}
    (h : lookupKey k l = some v) : (k, v) ∈ l := by
  induction l with
  | nil => exact absurd h (by simp [lookupKey])
  | cons p rest ih =>
    obtain ⟨k', v'⟩ := p
    unfold lookupKey at h
    by_cases hk : k' = k
    · rw [if_pos hk] at h
      subst hk
      rw [Option.some_inj.1 h]
      exact List.mem_cons_self _ _
    · rw [if_neg hk] at h
      exact List.mem_cons_of_mem _ (ih h)

theorem eraseKey_sublist {κ α : Type} [DecidableEq κ] (k : κ) (l : List (κ × α)) :
    (eraseKey k l).Sublist l := by
  induction l with
  | nil => exact List.Sublist.refl _
  | cons p rest ih =>
    obtain ⟨k', v'⟩ := p
    unfold eraseKey
    by_cases hk : k' = k
    · rw [if_pos hk]
      exact List.sublist_cons_self _ _
    · rw [if_neg hk]
      exact ih.cons₂ _

theorem mem_eraseKey_imp {κ α : Type} [DecidableEq κ] {k : κ} {l : List (κ × α)}
    {q : κ × α} (h : q ∈ eraseKey k l) : q ∈ l :=
  (eraseKey_sublist k l).subset h

theorem lookupKey_none_iff {κ α : Type} [DecidableEq κ] {k : κ} {l : List (κ × α)} :
    lookupKey k l = none ↔ k ∉ l.map Prod.fst := by
  induction l with
  | nil => simp [lookupKey]
  | cons p rest ih =>
    obtain ⟨k', v'⟩ := p
    unfold lookupKey
    by_cases hk : k' = k
    · simp [hk]
    · simp [hk, ih, Ne.symm hk]

theorem nodup_keys_eraseKey {κ α : Type} [DecidableEq κ] {k : κ} {l : List (κ × α)}
    (h : (l.map Prod.fst).Nodup) : ((eraseKey k l).map Prod.fst).Nodup :=
  h.sublist ((eraseKey_sublist k l).map Prod.fst)

theorem not_mem_keys_eraseKey {κ α : Type} [DecidableEq κ] {k : κ} {l : List (κ × α)}
    (h : (l.map Prod.fst).Nodup) : k ∉ (eraseKey k l).map Prod.fst := by
  induction l with
  | nil => simp [eraseKey]
  | cons p rest ih =>
    obtain ⟨k', v'⟩ := p
    unfold eraseKey
    simp only [List.map_cons, List.nodup_cons] at h
    by_cases hk : k' = k
    · rw [if_pos hk]
      subst hk
      exact fun hm => h.1 hm
    · rw [if_neg hk]
      simp only [List.map_cons, List.mem_cons]
      rintro (h1 | h2)
      · exact hk h1.symm
      · exact ih h.2 h2

theorem mem_insertKey_imp {κ α : Type} [DecidableEq κ] {k : κ} {v : α} {l : List (κ × α)}
    {q : κ × α} (h : q ∈ insertKey k v l) : q = (k, v) ∨ q ∈ l := by
  unfold insertKey at h
  rcases List.mem_append.1 h with h1 | h2
  · exact Or.inr (mem_eraseKey_imp h1)
  · exact Or.inl (List.mem_singleton.1 h2)

theorem nodup_keys_insertKey {κ α : Type} [DecidableEq κ] (k : κ) (v : α)
    {l : List (κ × α)} (h : (l.map Prod.fst).Nodup) :
    ((insertKey k v l).map Prod.fst).Nodup := by
  unfold insertKey
  rw [List.map_append]
  refine (List.nodup_append).2 ⟨nodup_keys_eraseKey h, by simp, ?_⟩
  intro a ha hb
  simp only [List.map_cons, List.map_nil, List.mem_singleton] at hb
  subst hb
  exact not_mem_keys_eraseKey h ha

theorem lookupKey_insertKey_self {κ α : Type} [DecidableEq κ] (k : κ) (v : α)
    {l : List (κ × α)} (h : (l.map Prod.fst).Nodup) :
    lookupKey k (insertKey k v l) = some v := by
  unfold insertKey
  rw [lookupKey_append, lookupKey_none_iff.2 (not_mem_keys_eraseKey h)]
  simp [lookupKey]

theorem lookupKey_eraseKey_ne {κ α : Type} [DecidableEq κ] {k k' : κ} (l : List (κ × α))
    (hne : k' ≠ k) : lookupKey k' (eraseKey k l) = lookupKey k' l := by
  induction l with
  | nil => rfl
  | cons p rest ih =>
    obtain ⟨k0, v0⟩ := p
    rw [eraseKey_cons, lookupKey_cons]
    by_cases hk : k0 = k
    · rw [if_pos hk, if_neg (fun he : k0 = k' => hne (he ▸ hk))]
    · rw [if_neg hk, lookupKey_cons]
      by_cases hk' : k0 = k'
      · rw [if_pos hk', if_pos hk']
      · rw [if_neg hk', if_neg hk', ih]

theorem lookupKey_insertKey_ne {κ α : Type} [DecidableEq κ] {k k' : κ} (v : α)
    (l : List (κ × α)) (hne : k' ≠ k) :
    lookupKey k' (insertKey k v l) = lookupKey k' l := by
  unfold insertKey
  rw [lookupKey_append, lookupKey_eraseKey_ne l hne]
  cases hl : lookupKey k' l with
  | some w => rfl
  | none =>
    rw [lookupKey_cons, if_neg (fun he : k = k' => hne he.symm)]
    rfl

theorem mem_eraseKey_of_ne {κ α : Type} [DecidableEq κ] {k : κ} {l : List (κ × α)}
    {q : κ × α} (h : q ∈ l) (hne : q.1 ≠ k) : q ∈ eraseKey k l := by
  induction l with
  | nil => exact absurd h (by simp)
  | cons p rest ih =>
    obtain ⟨k0, v0⟩ := p
    unfold eraseKey
    rcases List.mem_cons.1 h with h1 | h2
    · rw [if_neg (by rw [h1] at hne; exact fun he => hne he)]
      rw [h1]
      exact List.mem_cons_self _ _
    · by_cases hk : k0 = k
      · rw [if_pos hk]
        exact h2
      · rw [if_neg hk]
        exact List.mem_cons_of_mem _ (ih h2)

theorem lookup_eq_of_mem_nodup {κ α : Type} [DecidableEq κ] {k : κ} {v : α}
    {l : List (κ × α)} (h : (k, v) ∈ l) (hnd : (l.map Prod.fst).Nodup) :
    lookupKey k l = some v := by
  induction l with
  | nil => exact absurd h (by simp)
  | cons p rest ih =>
    obtain ⟨k0, v0⟩ := p
    simp only [List.map_cons, List.nodup_cons] at hnd
    rcases List.mem_cons.1 h with h1 | h2
    · injection h1 with hk hv
      subst hk
      subst hv
      rw [lookupKey_cons, if_pos rfl]
    · by_cases hk : k0 = k
      · subst hk
        exact absurd (List.mem_map.2 ⟨(k0, v), h2, rfl⟩) hnd.1
      · rw [lookupKey_cons, if_neg hk]
        exact ih h2 hnd.2

theorem values_eq_of_mem_nodup {κ α : Type} [DecidableEq κ] {k : κ} {a b : α}
    {l : List (κ × α)} (ha : (k, a) ∈ l) (hb : (k, b) ∈ l)
    (hnd : (l.map Prod.fst).Nodup) : a = b := by
  have h1 := lookup_eq_of_mem_nodup ha hnd
  have h2 := lookup_eq_of_mem_nodup hb hnd
  rw [h1] at h2
  exact Option.some_inj.1 h2

theorem lookupKey_filter_none {κ α : Type} [DecidableEq κ] {k : κ} {v : α}
    {l : List (κ × α)} (P : κ × α → Bool) (h : (k, v) ∈ l) (hP : P (k, v) = false)
    (hnd : (l.map Prod.fst).Nodup) : lookupKey k (l.filter P) = none := by
  rw [lookupKey_none_iff]
  intro hmem
  obtain ⟨q, hq, hqk⟩ := List.mem_map.1 hmem
  have hql := List.mem_filter.1 hq
  obtain ⟨k0, v0⟩ := q
  simp only at hqk
  subst hqk
  have : v0 = v := values_eq_of_mem_nodup hql.1 h hnd
  subst this
  rw [hql.2] at hP
  exact absurd hP (by simp)

theorem removeChannel_cons_ne (users : Users) (p : Bytes × Channel)
    (rest : List (Bytes × Channel)) (n : Bytes) (hne : p.1 ≠ toAsciiLower n) :
    Channels.removeChannel ⟨p :: rest⟩ users n =
      (⟨p :: (Channels.removeChannel ⟨rest⟩ users n).1.byName⟩,
       (Channels.removeChannel ⟨rest⟩ users n).2) := by
  obtain ⟨k0, c0⟩ := p
  unfold Channels.removeChannel
  rw [lookupKey_cons, if_neg hne]
  cases hl : lookupKey (toAsciiLower n) rest with
  | none => rfl
  | some c =>
    rw [eraseKey_cons, if_neg hne]

theorem removeChannel_cons_self (users : Users) (k0 : Bytes) (c0 : Channel)
    (rest : List (Bytes × Channel)) (hk : k0 = toAsciiLower c0.name) :
    Channels.removeChannel ⟨(k0, c0) :: rest⟩ users c0.name =
      (⟨rest⟩, sendToAll users.byId (ServerMsg.dropChannel c0.name)) := by
  unfold Channels.removeChannel
  rw [lookupKey_cons, if_pos hk]
  rw [show (match some c0 with
      | none => ((⟨(k0, c0) :: rest⟩ : Channels), ([] : Out))
      | some c =>
        ((⟨eraseKey (toAsciiLower c0.name) ((k0, c0) :: rest)⟩ : Channels),
         sendToAll users.byId (ServerMsg.dropChannel c.name))) =
      ((⟨eraseKey (toAsciiLower c0.name) ((k0, c0) :: rest)⟩ : Channels),
       sendToAll users.byId (ServerMsg.dropChannel c0.name)) from rfl]
  rw [eraseKey_cons, if_pos hk]

theorem chanRemoveStep_cons_ne (users : Users) (p : Bytes × Channel)
    (rest : List (Bytes × Channel)) (acc : Out) (n : Bytes)
    (hne : p.1 ≠ toAsciiLower n) :
    Channels.removeStep users (⟨p :: rest⟩, acc) n =
      (⟨p :: (Channels.removeStep users (⟨rest⟩, acc) n).1.byName⟩,
       (Channels.removeStep users (⟨rest⟩, acc) n).2) := by
  unfold Channels.removeStep
  rw [removeChannel_cons_ne users p rest n hne]

theorem chanRemoveStep_cons_self (users : Users) (k0 : Bytes) (c0 : Channel)
    (rest : List (Bytes × Channel)) (acc : Out) (hk : k0 = toAsciiLower c0.name) :
    Channels.removeStep users (⟨(k0, c0) :: rest⟩, acc) c0.name =
      (⟨rest⟩, acc ++ sendToAll users.byId (ServerMsg.dropChannel c0.name)) := by
  unfold Channels.removeStep
  rw [removeChannel_cons_self users k0 c0 rest hk]

theorem chanFold_skip (users : Users) (p : Bytes × Channel) :
    ∀ (names : List Bytes) (rest : List (Bytes × Channel)) (acc : Out),
      (∀ n ∈ names, toAsciiLower n ≠ p.1) →
      names.foldl (Channels.removeStep users) (⟨p :: rest⟩, acc) =
        (⟨p :: (names.foldl (Channels.removeStep users) (⟨rest⟩, acc)).1.byName⟩,
         (names.foldl (Channels.removeStep users) (⟨rest⟩, acc)).2) := by
  intro names
  induction names with
  | nil => intro rest acc h; rfl
  | cons n ns ih =>
    intro rest acc h
    simp only [List.foldl_cons]
    have hne : p.1 ≠ toAsciiLower n := fun he => h n (by simp) he.symm
    rw [chanRemoveStep_cons_ne users p rest acc n hne]
    exact ih _ _ (fun n' hn' => h n' (by simp [hn']))

theorem chanSweep_eq (users : Users) :
    ∀ l : List (Bytes × Channel),
      (∀ p ∈ l, p.1 = toAsciiLower p.2.name) → (l.map Prod.fst).Nodup →
      ∀ acc : Out,
      ((l.filter (fun p => decide (p.2.toLocation ∉ users.occupiedLocations))).map
          (fun p => p.2.name)).foldl (Channels.removeStep users) (⟨l⟩, acc) =
        (⟨l.filter (fun p => !decide (p.2.toLocation ∉ users.occupiedLocations))⟩,
         acc ++ (l.filter
            (fun p => decide (p.2.toLocation ∉ users.occupiedLocations))).flatMap
           (fun p => sendToAll users.byId (ServerMsg.dropChannel p.2.name))) := by
  intro l
  induction l with
  | nil =>
    intro _ _ acc
    simp [List.filter_nil]
  | cons q rest ih =>
    intro hwf hnodup acc
    have hk : q.1 = toAsciiLower q.2.name := hwf q (by simp)
    simp only [List.map_cons, List.nodup_cons] at hnodup
    have hwfr : ∀ p ∈ rest, p.1 = toAsciiLower p.2.name := fun p hp => hwf p (by simp [hp])
    by_cases hocc : q.2.toLocation ∉ users.occupiedLocations
    · rw [List.filter_cons_of_pos (by simpa using hocc),
        List.filter_cons_of_neg (by simpa using hocc),
        List.flatMap_cons, List.map_cons, List.foldl_cons]
      obtain ⟨k0, c0⟩ := q
      rw [chanRemoveStep_cons_self users k0 c0 rest acc hk]
      rw [ih hwfr hnodup.2 (acc ++ sendToAll users.byId (ServerMsg.dropChannel c0.name))]
      rw [List.append_assoc]
    · rw [List.filter_cons_of_neg (by simpa using hocc),
        List.filter_cons_of_pos (by simpa using hocc)]
      have hne : ∀ n ∈ (rest.filter
          (fun p => decide (p.2.toLocation ∉ users.occupiedLocations))).map
            (fun p => p.2.name), toAsciiLower n ≠ q.1 := by
        intro n hn
        obtain ⟨q', hq', hqn⟩ := List.mem_map.1 hn
        have hq'l := (List.mem_filter.1 hq').1
        rw [← hqn, ← hwfr q' hq'l]
        intro he
        exact hnodup.1 (he ▸ List.mem_map.2 ⟨q', hq'l, rfl⟩)
      rw [chanFold_skip users q _ rest acc hne]
      rw [ih hwfr hnodup.2 acc]

theorem removeGame_cons_ne (users : Users) (p : Bytes × Game)
    (rest : List (Bytes × Game)) (n : Bytes) (hne : p.1 ≠ toAsciiLower n) :
    Games.removeGame ⟨p :: rest⟩ users n =
      (⟨p :: (Games.removeGame ⟨rest⟩ users n).1.byName⟩,
       (Games.removeGame ⟨rest⟩ users n).2) := by
  obtain ⟨k0, g0⟩ := p
  unfold Games.removeGame
  rw [lookupKey_cons, if_neg hne]
  cases hl : lookupKey (toAsciiLower n) rest with
  | none => rfl
  | some g =>
    rw [eraseKey_cons, if_neg hne]

theorem removeGame_cons_self (users : Users) (k0 : Bytes) (g0 : Game)
    (rest : List (Bytes × Game)) (hk : k0 = toAsciiLower g0.name) :
    Games.removeGame ⟨(k0, g0) :: rest⟩ users g0.name =
      (⟨rest⟩, if g0.status = GameStatus.opened then
        sendToAll users.byId (ServerMsg.dropGameMsg g0.name) else []) := by
  unfold Games.removeGame
  rw [lookupKey_cons, if_pos hk]
  rw [show (match some g0 with
      | none => ((⟨(k0, g0) :: rest⟩ : Games), ([] : Out))
      | some g =>
        ((⟨eraseKey (toAsciiLower g0.name) ((k0, g0) :: rest)⟩ : Games),
         if g.status = GameStatus.opened then
           sendToAll users.byId (ServerMsg.dropGameMsg g.name) else [])) =
      ((⟨eraseKey (toAsciiLower g0.name) ((k0, g0) :: rest)⟩ : Games),
       if g0.status = GameStatus.opened then
         sendToAll users.byId (ServerMsg.dropGameMsg g0.name) else []) from rfl]
  rw [eraseKey_cons, if_pos hk]

theorem gameRemoveStep_cons_ne (users : Users) (p : Bytes × Game)
    (rest : List (Bytes × Game)) (acc : Out) (n : Bytes)
    (hne : p.1 ≠ toAsciiLower n) :
    Games.removeStep users (⟨p :: rest⟩, acc) n =
      (⟨p :: (Games.removeStep users (⟨rest⟩, acc) n).1.byName⟩,
       (Games.removeStep users (⟨rest⟩, acc) n).2) := by
  unfold Games.removeStep
  rw [removeGame_cons_ne users p rest n hne]

theorem gameRemoveStep_cons_self (users : Users) (k0 : Bytes) (g0 : Game)
    (rest : List (Bytes × Game)) (acc : Out) (hk : k0 = toAsciiLower g0.name) :
    Games.removeStep users (⟨(k0, g0) :: rest⟩, acc) g0.name =
      (⟨rest⟩, acc ++ (if g0.status = GameStatus.opened then
        sendToAll users.byId (ServerMsg.dropGameMsg g0.name) else [])) := by
  unfold Games.removeStep
  rw [removeGame_cons_self users k0 g0 rest hk]

theorem gameFold_skip (users : Users) (p : Bytes × Game) :
    ∀ (names : List Bytes) (rest : List (Bytes × Game)) (acc : Out),
      (∀ n ∈ names, toAsciiLower n ≠ p.1) →
      names.foldl (Games.removeStep users) (⟨p :: rest⟩, acc) =
        (⟨p :: (names.foldl (Games.removeStep users) (⟨rest⟩, acc)).1.byName⟩,
         (names.foldl (Games.removeStep users) (⟨rest⟩, acc)).2) := by
  intro names
  induction names with
  | nil => intro rest acc h; rfl
  | cons n ns ih =>
    intro rest acc h
    simp only [List.foldl_cons]
    have hne : p.1 ≠ toAsciiLower n := fun he => h n (by simp) he.symm
    rw [gameRemoveStep_cons_ne users p rest acc n hne]
    exact ih _ _ (fun n' hn' => h n' (by simp [hn']))

theorem gameSweep_eq (users : Users) (now : Nat) :
    ∀ l : List (Bytes × Game),
      (∀ p ∈ l, p.1 = toAsciiLower p.2.name) → (l.map Prod.fst).Nodup →
      ∀ acc : Out,
      ((l.filter (fun p => if p.2.status = GameStatus.requested then
            decide (30 < now - p.2.createdAt)
          else decide (p.2.toLocation ∉ users.occupiedLocations))).map
          (fun p => p.2.name)).foldl (Games.removeStep users) (⟨l⟩, acc) =
        (⟨l.filter (fun p => !(if p.2.status = GameStatus.requested then
            decide (30 < now - p.2.createdAt)
          else decide (p.2.toLocation ∉ users.occupiedLocations)))⟩,
         acc ++ (l.filter (fun p => if p.2.status = GameStatus.requested then
            decide (30 < now - p.2.createdAt)
          else decide (p.2.toLocation ∉ users.occupiedLocations))).flatMap
           (fun p => if p.2.status = GameStatus.opened then
             sendToAll users.byId (ServerMsg.dropGameMsg p.2.name) else [])) := by
  intro l
  induction l with
  | nil =>
    intro _ _ acc
    simp [List.filter_nil]
  | cons q rest ih =>
    intro hwf hnodup acc
    have hk : q.1 = toAsciiLower q.2.name := hwf q (by simp)
    simp only [List.map_cons, List.nodup_cons] at hnodup
    have hwfr : ∀ p ∈ rest, p.1 = toAsciiLower p.2.name := fun p hp => hwf p (by simp [hp])
    by_cases hstale : (if q.2.status = GameStatus.requested then
        decide (30 < now - q.2.createdAt)
      else decide (q.2.toLocation ∉ users.occupiedLocations)) = true
    · rw [List.filter_cons_of_pos (by exact hstale),
        List.filter_cons_of_neg (by simp only [hstale]; decide),
        List.flatMap_cons, List.map_cons, List.foldl_cons]
      obtain ⟨k0, g0⟩ := q
      rw [gameRemoveStep_cons_self users k0 g0 rest acc hk]
      rw [ih hwfr hnodup.2 (acc ++ (if g0.status = GameStatus.opened then
        sendToAll users.byId (ServerMsg.dropGameMsg g0.name) else []))]
      rw [List.append_assoc]
    · rw [List.filter_cons_of_neg (by exact hstale),
        List.filter_cons_of_pos (by
          cases h : (if q.2.status = GameStatus.requested then
              decide (30 < now - q.2.createdAt)
            else decide (q.2.toLocation ∉ users.occupiedLocations)) with
          | false => simp [h]
          | true => exact absurd h hstale)]
      have hne : ∀ n ∈ (rest.filter (fun p => if p.2.status = GameStatus.requested then
            decide (30 < now - p.2.createdAt)
          else decide (p.2.toLocation ∉ users.occupiedLocations))).map
            (fun p => p.2.name), toAsciiLower n ≠ q.1 := by
        intro n hn
        obtain ⟨q', hq', hqn⟩ := List.mem_map.1 hn
        have hq'l := (List.mem_filter.1 hq').1
        rw [← hqn, ← hwfr q' hq'l]
        intro he
        exact hnodup.1 (he ▸ List.mem_map.2 ⟨q', hq'l, rfl⟩)
      rw [gameFold_skip users q _ rest acc hne]
      rw [ih hwfr hnodup.2 acc]

theorem mem_insertKey_self {κ α : Type} [DecidableEq κ] (k : κ) (v : α)
    (l : List (κ × α)) : (k, v) ∈ insertKey k v l := by
  unfold insertKey
  exact List.mem_append_right _ (List.mem_singleton.2 rfl)

theorem update_byId (users : Users) (u : User) :
    (users.update u).1.byId = insertKey u.id u users.byId := by
  unfold Users.update Users.insert insertKey
  cases hl : lookupKey u.id users.byId with
  | none => rw [eraseKey_of_lookup_none hl]
  | some prev => rfl

theorem chansCheckRemoveEmpty_eq (channels : Channels) (users : Users)
    (h : ChansWF channels) :
    channels.checkRemoveEmpty users =
      (⟨channels.byName.filter
          (fun p => !decide (p.2.toLocation ∉ users.occupiedLocations))⟩,
       (channels.byName.filter
          (fun p => decide (p.2.toLocation ∉ users.occupiedLocations))).flatMap
         (fun p => sendToAll users.byId (ServerMsg.dropChannel p.2.name))) := by
  have hs := chanSweep_eq users channels.byName h.1 h.2 []
  unfold Channels.checkRemoveEmpty
  simpa using hs

theorem gamesCheckRemoveEmpty_eq (games : Games) (users : Users) (now : Nat)
    (h : GamesWF games) :
    games.checkRemoveEmpty users now =
      (⟨games.byName.filter (fun p =>
          !(if p.2.status = GameStatus.requested then decide (30 < now - p.2.createdAt)
            else decide (p.2.toLocation ∉ users.occupiedLocations)))⟩,
       (games.byName.filter (fun p =>
          if p.2.status = GameStatus.requested then decide (30 < now - p.2.createdAt)
          else decide (p.2.toLocation ∉ users.occupiedLocations))).flatMap
         (fun p => if p.2.status = GameStatus.opened then
            sendToAll users.byId (ServerMsg.dropGameMsg p.2.name) else [])) := by
  have hs := gameSweep_eq users now games.byName h.1 h.2.1 []
  unfold Games.checkRemoveEmpty
  simpa using hs

theorem housekeeping_channels (s : BrokerState) (now : Nat) :
    (housekeeping s now).1.channels = (s.channels.checkRemoveEmpty s.users).1 := rfl

theorem housekeeping_games (s : BrokerState) (now : Nat) :
    (housekeeping s now).1.games = (s.games.checkRemoveEmpty s.users now).1 := rfl

theorem step_eq {s : BrokerState} {e : Event} {freshGuid now : Nat}
    {r m : BrokerState × Out} (hd : dispatch s e freshGuid now = some m)
    (hs : step s e freshGuid now = some r) :
    r.1 = (housekeeping m.1 now).1 ∧ r.2 = m.2 ++ (housekeeping m.1 now).2 := by
  unfold step at hs
  rw [hd] at hs
  have h2 := Option.some_inj.1 hs
  rw [← h2]
  exact ⟨rfl, rfl⟩

theorem usersWF_insertKey {users : Users} (u : User) (h : UsersWF users) :
    (∀ p ∈ insertKey u.id u users.byId, p.1 = p.2.id) ∧
      ((insertKey u.id u users.byId).map Prod.fst).Nodup := by
  constructor
  · intro p hp
    rcases mem_insertKey_imp hp with h1 | h1
    · rw [h1]
    · exact h.1 p h1
  · exact nodup_keys_insertKey _ _ h.2

theorem usersWF_insert (users : Users) (u : User) (h : UsersWF users) :
    UsersWF (users.insert u).1 :=
  usersWF_insertKey u h

theorem usersWF_update (users : Users) (u : User) (h : UsersWF users) :
    UsersWF (users.update u).1 := by
  constructor
  · intro p hp
    rw [update_byId] at hp
    exact (usersWF_insertKey u h).1 p hp
  · rw [update_byId]
    exact (usersWF_insertKey u h).2

theorem usersWF_remove (users : Users) (id : Nat) (h : UsersWF users) :
    UsersWF (users.remove id).1 := by
  unfold Users.remove
  cases hl : lookupKey id users.byId with
  | none => exact h
  | some u =>
    constructor
    · intro p hp
      exact h.1 p (mem_eraseKey_imp hp)
    · exact nodup_keys_eraseKey h.2

theorem chansWF_getOrCreate (channels : Channels) (users : Users) (name : Bytes)
    (h : ChansWF channels) : ChansWF (channels.getOrCreate users name).1 := by
  unfold Channels.getOrCreate
  cases hl : lookupKey (toAsciiLower name) channels.byName with
  | some c => exact h
  | none =>
    constructor
    · intro p hp
      rcases mem_insertKey_imp hp with h1 | h1
      · rw [h1]
      · exact h.1 p h1
    · exact nodup_keys_insertKey _ _ h.2

theorem getOrCreate_superset {channels : Channels} {users : Users} {name : Bytes}
    {q : Bytes × Channel} (hq : q ∈ channels.byName) :
    q ∈ (channels.getOrCreate users name).1.byName := by
  unfold Channels.getOrCreate
  cases hl : lookupKey (toAsciiLower name) channels.byName with
  | some c => exact hq
  | none =>
    show q ∈ insertKey (toAsciiLower name) (⟨name⟩ : Channel) channels.byName
    unfold insertKey
    rw [eraseKey_of_lookup_none hl]
    exact List.mem_append_left _ hq

theorem getOrCreate_chan_mem (channels : Channels) (users : Users) (name : Bytes) :
    ∃ q ∈ (channels.getOrCreate users name).1.byName,
      q.2 = (channels.getOrCreate users name).2.2 := by
  unfold Channels.getOrCreate
  cases hl : lookupKey (toAsciiLower name) channels.byName with
  | some c => exact ⟨(toAsciiLower name, c), lookupKey_mem hl, rfl⟩
  | none =>
    exact ⟨(toAsciiLower name, ⟨name⟩), mem_insertKey_self _ _ _, rfl⟩

theorem chansWF_checkRemoveEmpty {channels : Channels} (users : Users)
    (h : ChansWF channels) : ChansWF (channels.checkRemoveEmpty users).1 := by
  rw [chansCheckRemoveEmpty_eq channels users h]
  constructor
  · intro p hp
    exact h.1 p (List.mem_filter.1 hp).1
  · exact h.2.sublist ((List.filter_sublist _).map Prod.fst)

theorem gamesWF_checkRemoveEmpty {games : Games} (users : Users) (now : Nat)
    (h : GamesWF games) : GamesWF (games.checkRemoveEmpty users now).1 := by
  rw [gamesCheckRemoveEmpty_eq games users now h]
  refine ⟨?_, ?_, ?_⟩
  · intro p hp
    exact h.1 p (List.mem_filter.1 hp).1
  · exact h.2.1.sublist ((List.filter_sublist _).map Prod.fst)
  · intro p hp
    exact h.2.2 p (List.mem_filter.1 hp).1

theorem gamesWF_createGame {games : Games} {user : User} {name password : Bytes}
    {freshGuid now : Nat} (h : GamesWF games) :
    GamesWF (games.createGame user name password freshGuid now).1 := by
  unfold Games.createGame
  refine ⟨?_, ?_, ?_⟩
  · intro p hp
    rcases mem_insertKey_imp hp with h1 | h1
    · rw [h1]
    · exact h.1 p h1
  · exact nodup_keys_insertKey _ _ h.2.1
  · intro p hp hreq
    rcases mem_insertKey_imp hp with h1 | h1
    · rw [h1]
    · exact h.2.2 p h1 hreq

theorem gamesWF_openGame {games : Games} (users : Users) {name : Bytes}
    (guid : Nat) (h : GamesWF games) :
    GamesWF (games.openGame users name guid).1 := by
  unfold Games.openGame
  cases hl : games.get name with
  | none => exact h
  | some g =>
    have hkey : toAsciiLower name = toAsciiLower g.name :=
      h.1 (toAsciiLower name, g) (lookupKey_mem hl)
    refine ⟨?_, ?_, ?_⟩
    · intro p hp
      rcases mem_insertKey_imp hp with h1 | h1
      · rw [h1]
        exact hkey
      · exact h.1 p h1
    · exact nodup_keys_insertKey _ _ h.2.1
    · intro p hp hreq
      rcases mem_insertKey_imp hp with h1 | h1
      · rw [h1] at hreq
        exact absurd hreq (by simp)
      · exact h.2.2 p h1 hreq

theorem gamesWF_startGame {games : Games} (users : Users) {name : Bytes}
    (h : GamesWF games) : GamesWF (games.startGame users name).1 := by
  unfold Games.startGame
  cases hl : games.get name with
  | none => exact h
  | some g =>
    have hkey : toAsciiLower name = toAsciiLower g.name :=
      h.1 (toAsciiLower name, g) (lookupKey_mem hl)
    refine ⟨?_, ?_, ?_⟩
    · intro p hp
      rcases mem_insertKey_imp hp with h1 | h1
      · rw [h1]
        exact hkey
      · exact h.1 p h1
    · exact nodup_keys_insertKey _ _ h.2.1
    · intro p hp hreq
      rcases mem_insertKey_imp hp with h1 | h1
      · rw [h1] at hreq
        exact absurd hreq (by simp)
      · exact h.2.2 p h1 hreq

theorem locationChanOk_mono {channels channels' : Channels} {l : Location}
    (hsub : ∀ q ∈ channels.byName, q ∈ channels'.byName)
    (h : locationChanOk channels l) : locationChanOk channels' l := by
  cases l with
  | channel n =>
    have h' : ∃ q ∈ channels.byName, q.2.name = n := h
    obtain ⟨q, hq, hn⟩ := h'
    exact ⟨q, hsub q hq, hn⟩
  | game n => trivial
  | nowhere => trivial

theorem userChan_update {users : Users} {channels : Channels} {u : User}
    (h : UserChan users channels) (hu : locationChanOk channels u.location) :
    UserChan (users.update u).1 channels := by
  intro p hp
  rw [update_byId] at hp
  rcases mem_insertKey_imp hp with h1 | h1
  · rw [h1]
    exact hu
  · exact h p h1

theorem userChan_insert {users : Users} {channels : Channels} {u : User}
    (h : UserChan users channels) (hu : locationChanOk channels u.location) :
    UserChan (users.insert u).1 channels := by
  intro p hp
  rcases mem_insertKey_imp hp with h1 | h1
  · rw [h1]
    exact hu
  · exact h p h1

theorem userChan_remove {users : Users} {channels : Channels} (id : Nat)
    (h : UserChan users channels) : UserChan (users.remove id).1 channels := by
  unfold Users.remove
  cases hl : lookupKey id users.byId with
  | none => exact h
  | some u =>
    intro p hp
    exact h p (mem_eraseKey_imp hp)

theorem userChan_sweep {users : Users} {channels : Channels}
    (hwf : ChansWF channels) (h : UserChan users channels) :
    UserChan users (channels.checkRemoveEmpty users).1 := by
  intro p hp
  have hl := h p hp
  rw [chansCheckRemoveEmpty_eq channels users hwf]
  cases hloc : p.2.location with
  | channel n =>
    rw [hloc] at hl
    have hl' : ∃ q ∈ channels.byName, q.2.name = n := hl
    obtain ⟨q, hq, hn⟩ := hl'
    have hocc : q.2.toLocation ∈ users.occupiedLocations := by
      unfold Channel.toLocation
      rw [hn, ← hloc]
      exact List.mem_map.2 ⟨p, hp, rfl⟩
    exact ⟨q, List.mem_filter.2 ⟨hq, by simp [hocc]⟩, hn⟩
  | game n => trivial
  | nowhere => trivial

theorem usersWF_joinChannel (users : Users) (channels : Channels) (user : User)
    (channelName : Bytes) (h : UsersWF users) :
    UsersWF (joinChannel users channels user channelName).1 := by
  unfold joinChannel
  split
  · exact h
  · dsimp only
    split
    · exact h
    · exact usersWF_update _ _ h

theorem chansWF_joinChannel (users : Users) (channels : Channels) (user : User)
    (channelName : Bytes) (h : ChansWF channels) :
    ChansWF (joinChannel users channels user channelName).2.1 := by
  unfold joinChannel
  split
  · exact h
  · dsimp only
    split
    · exact chansWF_getOrCreate _ _ _ h
    · exact chansWF_getOrCreate _ _ _ h

theorem userChan_joinChannel (users : Users) (channels : Channels) (user : User)
    (channelName : Bytes) (h : UserChan users channels) :
    UserChan (joinChannel users channels user channelName).1
      (joinChannel users channels user channelName).2.1 := by
  unfold joinChannel
  split
  · exact h
  · dsimp only
    split
    · intro p hp
      exact locationChanOk_mono (fun q hq => getOrCreate_superset hq) (h p hp)
    · refine userChan_update
        (fun p hp => locationChanOk_mono (fun q hq => getOrCreate_superset hq) (h p hp)) ?_
      obtain ⟨q, hq, he⟩ := getOrCreate_chan_mem channels users channelName
      exact ⟨q, hq, by rw [he]⟩

theorem usersWF_hostGame (users : Users) (games : Games) (user : User)
    (gameName passwordOrGuid : Bytes) (freshGuid now : Nat) (h : UsersWF users) :
    UsersWF (hostGame users games user gameName passwordOrGuid freshGuid now).1 := by
  unfold hostGame
  split
  · exact h
  · split
    · exact h
    · split
      · exact h
      · split
        · exact h
        · split
          · exact usersWF_update _ _ h
          · exact h
          · exact h

theorem gamesWF_hostGame (users : Users) (games : Games) (user : User)
    (gameName passwordOrGuid : Bytes) (freshGuid now : Nat) (h : GamesWF games) :
    GamesWF (hostGame users games user gameName passwordOrGuid freshGuid now).2.1 := by
  unfold hostGame
  split
  · exact h
  · split
    · exact gamesWF_createGame h
    · split
      · exact h
      · split
        · exact h
        · split
          · exact gamesWF_openGame _ _ h
          · exact gamesWF_startGame _ h
          · exact h

theorem userChan_hostGame (users : Users) (games : Games) (user : User)
    (gameName passwordOrGuid : Bytes) (freshGuid now : Nat) {channels : Channels}
    (h : UserChan users channels) :
    UserChan (hostGame users games user gameName passwordOrGuid freshGuid now).1 channels := by
  unfold hostGame
  split
  · exact h
  · split
    · exact h
    · split
      · exact h
      · split
        · exact h
        · split
          · exact userChan_update h trivial
          · exact h
          · exact h

theorem usersWF_joinGame (users : Users) (games : Games) (user : User)
    (gameName password : Bytes) (h : UsersWF users) :
    UsersWF (joinGame users games user gameName password).1 := by
  unfold joinGame
  split
  · exact h
  · split
    · split
      · exact usersWF_update _ _ h
      · exact h
    · split
      · exact h
      · exact h

theorem userChan_joinGame (users : Users) (games : Games) (user : User)
    (gameName password : Bytes) {channels : Channels} (h : UserChan users channels) :
    UserChan (joinGame users games user gameName password).1 channels := by
  unfold joinGame
  split
  · exact h
  · split
    · split
      · exact userChan_update h trivial
      · exact h
    · split
      · exact h
      · exact h

theorem inv_handleNewUser (s : BrokerState) (id : Nat) (username : Bytes)
    (gameVersion : Nat) (ipAddr : Ipv4) (h : Inv s) :
    Inv (handleNewUser s id username gameVersion ipAddr).1 := by
  obtain ⟨h1, h2, h3, h4⟩ := h
  unfold handleNewUser
  split
  · exact ⟨h1, h2, h3, h4⟩
  · dsimp only
    split
    · refine ⟨?_, ?_, h3, ?_⟩
      · exact usersWF_joinChannel _ _ _ _ (usersWF_insert _ _ h1)
      · exact chansWF_joinChannel _ _ _ _ h2
      · exact userChan_joinChannel _ _ _ _ (userChan_insert h4 trivial)
    · exact ⟨usersWF_insert _ _ h1, h2, h3, userChan_insert h4 trivial⟩

theorem inv_handleClientCommand {s : BrokerState} {uid : Nat} {cmd : ClientCommand}
    {freshGuid now : Nat} {r : BrokerState × Out} (h : Inv s)
    (hc : handleClientCommand s uid cmd freshGuid now = some r) : Inv r.1 := by
  obtain ⟨h1, h2, h3, h4⟩ := h
  unfold handleClientCommand at hc
  split at hc
  · rw [← Option.some_inj.1 hc]
    exact ⟨h1, h2, h3, h4⟩
  · rename_i user hu
    split at hc
    · rw [← Option.some_inj.1 hc]
      exact ⟨h1, h2, h3, h4⟩
    · rename_i target message
      cases hp : privateMessage s user target message with
      | none =>
        rw [hp] at hc
        exact absurd hc (by simp)
      | some out =>
        rw [hp] at hc
        have he : (s, out) = r := Option.some_inj.1 hc
        rw [← he]
        exact ⟨h1, h2, h3, h4⟩
    · rw [← Option.some_inj.1 hc]
      exact ⟨usersWF_joinChannel _ _ _ _ h1, chansWF_joinChannel _ _ _ _ h2, h3,
        userChan_joinChannel _ _ _ _ h4⟩
    · rw [← Option.some_inj.1 hc]
      exact ⟨usersWF_hostGame _ _ _ _ _ _ _ h1, h2, gamesWF_hostGame _ _ _ _ _ _ _ h3,
        userChan_hostGame _ _ _ _ _ _ _ h4⟩
    · rw [← Option.some_inj.1 hc]
      exact ⟨usersWF_joinGame _ _ _ _ _ h1, h2, h3, userChan_joinGame _ _ _ _ _ h4⟩
    · rw [← Option.some_inj.1 hc]
      exact ⟨h1, h2, h3, h4⟩
    · rw [← Option.some_inj.1 hc]
      exact ⟨h1, h2, h3, h4⟩
    · rw [← Option.some_inj.1 hc]
      exact ⟨h1, h2, h3, h4⟩

theorem inv_dispatch {s : BrokerState} {e : Event} {freshGuid now : Nat}
    {r : BrokerState × Out} (h : Inv s) (hd : dispatch s e freshGuid now = some r) :
    Inv r.1 := by
  cases e with
  | newUser id un gv ip =>
    have h2 : some (handleNewUser s id un gv ip) = some r := hd
    rw [← Option.some_inj.1 h2]
    exact inv_handleNewUser _ _ _ _ _ h
  | command id cmd => exact inv_handleClientCommand h hd
  | dropClient id =>
    have h2 : some ({ s with users := (s.users.remove id).1 }, (s.users.remove id).2)
        = some r := hd
    rw [← Option.some_inj.1 h2]
    exact ⟨usersWF_remove _ _ h.1, h.2.1, h.2.2.1, userChan_remove _ h.2.2.2⟩

theorem inv_housekeeping (s : BrokerState) (now : Nat) (h : Inv s) :
    Inv (housekeeping s now).1 := by
  obtain ⟨h1, h2, h3, h4⟩ := h
  exact ⟨h1, chansWF_checkRemoveEmpty s.users h2,
    gamesWF_checkRemoveEmpty s.users now h3, userChan_sweep h2 h4⟩

theorem inv_step {s : BrokerState} {e : Event} {freshGuid now : Nat}
    {r : BrokerState × Out} (h : Inv s) (hs : step s e freshGuid now = some r) :
    Inv r.1 := by
  cases hd : dispatch s e freshGuid now with
  | none =>
    unfold step at hs
    rw [hd] at hs
    exact absurd hs (by simp)
  | some m =>
    rw [(step_eq hd hs).1]
    exact inv_housekeeping _ _ (inv_dispatch h hd)

theorem inv_init : Inv initState := by decide

theorem reachable_inv {s : BrokerState} (h : Reachable s) : Inv s := by
  obtain ⟨evs, hrun⟩ := h
  have main : ∀ (l : List TimedEvent) (s0 : BrokerState), Inv s0 →
      runEvents s0 l = some s → Inv s := by
    intro l
    induction l with
    | nil =>
      intro s0 h0 hr
      rw [← Option.some_inj.1 hr]
      exact h0
    | cons ev rest ih =>
      intro s0 h0 hr
      obtain ⟨e, g, n⟩ := ev
      unfold runEvents at hr
      split at hr
      · exact absurd hr (by simp)
      · rename_i s' out heq
        exact ih s' (inv_step h0 heq) hr
  exact main evs initState inv_init hrun

theorem parseGuid_zero : parseGuid zeroGuidBytes = some 0 := by decide

/-- Claim C7: after the post-event housekeeping of every event processed
from an invariant-respecting state, the channels present in broker state
are exactly the channel locations occupied by a live user: every channel
left in the map is occupied, every user's channel location is in the map,
every channel of the dispatched state that is unoccupied is removed with a
`/&channel` drop broadcast fanned out to every user, and no occupied
channel is removed. -/
theorem c7_channels_exact (s : BrokerState) (e : Event) (freshGuid now : Nat)
    (m r : BrokerState × Out) (hInv : Inv s)
    (hd : dispatch s e freshGuid now = some m)
    (hstep : step s e freshGuid now = some r) :
    (∀ q ∈ r.1.channels.byName, q.2.toLocation ∈ r.1.users.occupiedLocations) ∧
    (∀ p ∈ r.1.users.byId, ∀ n, p.2.location = Location.channel n →
      ∃ q ∈ r.1.channels.byName, q.2.name = n) ∧
    (∀ q ∈ m.1.channels.byName, q.2.toLocation ∉ m.1.users.occupiedLocations →
      q ∉ r.1.channels.byName ∧
      ∀ p ∈ m.1.users.byId, (p.2.id, ServerMsg.dropChannel q.2.name) ∈ r.2) ∧
    (∀ q ∈ m.1.channels.byName, q.2.toLocation ∈ m.1.users.occupiedLocations →
      q ∈ r.1.channels.byName) := by
  obtain ⟨hr1, hr2⟩ := step_eq hd hstep
  have hm : Inv m.1 := inv_dispatch hInv hd
  have hpair := chansCheckRemoveEmpty_eq m.1.channels m.1.users hm.2.1
  have hch : r.1.channels.byName = m.1.channels.byName.filter
      (fun p => !decide (p.2.toLocation ∉ m.1.users.occupiedLocations)) := by
    rw [hr1, housekeeping_channels, hpair]
  have hus : r.1.users = m.1.users := by
    rw [hr1, housekeeping_users]
  refine ⟨?_, ?_, ?_, ?_⟩
  · intro q hq
    rw [hch] at hq
    have h2 := (List.mem_filter.1 hq).2
    rw [hus]
    simpa using h2
  · intro p hp n hloc
    rw [hus] at hp
    have hl := hm.2.2.2 p hp
    rw [hloc] at hl
    have hl' : ∃ q ∈ m.1.channels.byName, q.2.name = n := hl
    obtain ⟨q, hq, hn⟩ := hl'
    refine ⟨q, ?_, hn⟩
    rw [hch]
    refine List.mem_filter.2 ⟨hq, ?_⟩
    have hocc : q.2.toLocation ∈ m.1.users.occupiedLocations := by
      unfold Channel.toLocation
      rw [hn, ← hloc]
      exact List.mem_map.2 ⟨p, hp, rfl⟩
    simp [hocc]
  · intro q hq hocc
    constructor
    · intro hmem
      rw [hch] at hmem
      have h2 := (List.mem_filter.1 hmem).2
      simp at h2
      exact hocc h2
    · intro p hp
      rw [hr2, housekeeping_out]
      refine List.mem_append_right _ (List.mem_append_left _ (List.mem_append_left _ ?_))
      rw [show (m.1.channels.checkRemoveEmpty m.1.users).2 =
          (m.1.channels.byName.filter
            (fun p => decide (p.2.toLocation ∉ m.1.users.occupiedLocations))).flatMap
            (fun p => sendToAll m.1.users.byId (ServerMsg.dropChannel p.2.name)) from
        congrArg Prod.snd hpair]
      exact List.mem_flatMap.2
        ⟨q, List.mem_filter.2 ⟨hq, decide_eq_true hocc⟩, sendToAll_mem hp⟩
  · intro q hq hocc
    rw [hch]
    exact List.mem_filter.2 ⟨hq, by simp [hocc]⟩

/-- Witness for C7: bar's login on the one-user state satisfies the
invariant and the step hypotheses, and the post-housekeeping exactness
holds on the resulting state. -/
theorem c7_channels_exact_witness :
    Inv demoS1 ∧
    dispatch demoS1 (Event.newUser 2 (strBytes ("bar")) 77 (127, 0, 0, 2)) 13 2 =
      some demoDispatch3 ∧
    step demoS1 (Event.newUser 2 (strBytes ("bar")) 77 (127, 0, 0, 2)) 13 2 =
      some demoStep3 ∧
    ((∀ q ∈ demoStep3.1.channels.byName,
        q.2.toLocation ∈ demoStep3.1.users.occupiedLocations) ∧
     (∀ p ∈ demoStep3.1.users.byId, ∀ n, p.2.location = Location.channel n →
        ∃ q ∈ demoStep3.1.channels.byName, q.2.name = n) ∧
     (∀ q ∈ demoDispatch3.1.channels.byName,
        q.2.toLocation ∉ demoDispatch3.1.users.occupiedLocations →
        q ∉ demoStep3.1.channels.byName ∧
        ∀ p ∈ demoDispatch3.1.users.byId,
          (p.2.id, ServerMsg.dropChannel q.2.name) ∈ demoStep3.2) ∧
     (∀ q ∈ demoDispatch3.1.channels.byName,
        q.2.toLocation ∈ demoDispatch3.1.users.occupiedLocations →
        q ∈ demoStep3.1.channels.byName)) :=
  ⟨by decide, by decide, by decide,
   c7_channels_exact demoS1 (Event.newUser 2 (strBytes ("bar")) 77 (127, 0, 0, 2)) 13 2
     demoDispatch3 demoStep3 (by decide) (by decide) (by decide)⟩

/-- Claim C1: after the post-event housekeeping of every event processed
from an invariant-respecting state, no surviving game is a Requested game
older than 30 seconds or a non-Requested (Open/Started) game with no
occupant; every such stale game of the dispatched state is removed, and
the removal of an unoccupied Open game is announced with a `/&play` drop
broadcast fanned out to every user. -/
theorem c1_game_housekeeping (s : BrokerState) (e : Event) (freshGuid now : Nat)
    (m r : BrokerState × Out) (hInv : Inv s)
    (hd : dispatch s e freshGuid now = some m)
    (hstep : step s e freshGuid now = some r) :
    (∀ q ∈ r.1.games.byName,
      (q.2.status = GameStatus.requested → now - q.2.createdAt ≤ 30) ∧
      (q.2.status ≠ GameStatus.requested →
        q.2.toLocation ∈ r.1.users.occupiedLocations)) ∧
    (∀ q ∈ m.1.games.byName,
      (q.2.status = GameStatus.requested → 30 < now - q.2.createdAt →
        q ∉ r.1.games.byName) ∧
      (q.2.status ≠ GameStatus.requested →
        q.2.toLocation ∉ m.1.users.occupiedLocations → q ∉ r.1.games.byName) ∧
      (q.2.status = GameStatus.opened →
        q.2.toLocation ∉ m.1.users.occupiedLocations →
        ∀ p ∈ m.1.users.byId, (p.2.id, ServerMsg.dropGameMsg q.2.name) ∈ r.2)) := by
  obtain ⟨hr1, hr2⟩ := step_eq hd hstep
  have hm : Inv m.1 := inv_dispatch hInv hd
  have hpair := gamesCheckRemoveEmpty_eq m.1.games m.1.users now hm.2.2.1
  have hgm : r.1.games.byName = m.1.games.byName.filter (fun p =>
      !(if p.2.status = GameStatus.requested then decide (30 < now - p.2.createdAt)
        else decide (p.2.toLocation ∉ m.1.users.occupiedLocations))) := by
    rw [hr1, housekeeping_games, hpair]
  have hus : r.1.users = m.1.users := by
    rw [hr1, housekeeping_users]
  constructor
  · intro q hq
    rw [hgm] at hq
    have h2 := (List.mem_filter.1 hq).2
    constructor
    · intro hreq
      rw [if_pos hreq] at h2
      simp at h2
      omega
    · intro hne
      rw [if_neg hne] at h2
      rw [hus]
      simpa using h2
  · intro q hq
    refine ⟨?_, ?_, ?_⟩
    · intro hreq hgt hmem
      rw [hgm] at hmem
      have h2 := (List.mem_filter.1 hmem).2
      rw [if_pos hreq] at h2
      simp at h2
      omega
    · intro hne hocc hmem
      rw [hgm] at hmem
      have h2 := (List.mem_filter.1 hmem).2
      rw [if_neg hne] at h2
      simp at h2
      exact hocc h2
    · intro hopen hocc p hp
      have hne : q.2.status ≠ GameStatus.requested := by
        rw [hopen]
        simp
      rw [hr2, housekeeping_out]
      refine List.mem_append_right _ (List.mem_append_left _ (List.mem_append_right _ ?_))
      rw [show (m.1.games.checkRemoveEmpty m.1.users now).2 =
          (m.1.games.byName.filter (fun p =>
            if p.2.status = GameStatus.requested then decide (30 < now - p.2.createdAt)
            else decide (p.2.toLocation ∉ m.1.users.occupiedLocations))).flatMap
            (fun p => if p.2.status = GameStatus.opened then
              sendToAll m.1.users.byId (ServerMsg.dropGameMsg p.2.name) else []) from
        congrArg Prod.snd hpair]
      refine List.mem_flatMap.2 ⟨q, List.mem_filter.2 ⟨hq, ?_⟩, ?_⟩
      · rw [if_neg hne]
        exact decide_eq_true hocc
      · rw [if_pos hopen]
        exact sendToAll_mem hp

/-- Witness for C1: a public message on the two-user state at time 40
satisfies the hypotheses, and the 39-second-old Requested game is swept by
the housekeeping pass. -/
theorem c1_game_housekeeping_witness :
    Inv demoS3 ∧
    dispatch demoS3 (Event.command 2 (ClientCommand.send (strBytes ("hi")))) 14 40 =
      some demoDispatch4 ∧
    step demoS3 (Event.command 2 (ClientCommand.send (strBytes ("hi")))) 14 40 =
      some demoPair4 ∧
    ((∀ q ∈ demoPair4.1.games.byName,
        (q.2.status = GameStatus.requested → 40 - q.2.createdAt ≤ 30) ∧
        (q.2.status ≠ GameStatus.requested →
          q.2.toLocation ∈ demoPair4.1.users.occupiedLocations)) ∧
     (∀ q ∈ demoDispatch4.1.games.byName,
        (q.2.status = GameStatus.requested → 30 < 40 - q.2.createdAt →
          q ∉ demoPair4.1.games.byName) ∧
        (q.2.status ≠ GameStatus.requested →
          q.2.toLocation ∉ demoDispatch4.1.users.occupiedLocations →
          q ∉ demoPair4.1.games.byName) ∧
        (q.2.status = GameStatus.opened →
          q.2.toLocation ∉ demoDispatch4.1.users.occupiedLocations →
          ∀ p ∈ demoDispatch4.1.users.byId,
            (p.2.id, ServerMsg.dropGameMsg q.2.name) ∈ demoPair4.2))) :=
  ⟨by decide, by decide, by decide,
   c1_game_housekeeping demoS3 (Event.command 2 (ClientCommand.send (strBytes ("hi")))) 14 40
     demoDispatch4 demoPair4 (by decide) (by decide) (by decide)⟩

/-- Claim C9: in every reachable broker state a Requested game stores the
all-zero invite GUID, so a `playc` naming it whose password parses as the
GUID 00000000-0000-0000-0000-000000000000 moves the caller into the game
via `Users::update` — the stored password is never consulted on this
path. -/
theorem c9_zero_guid_requested (s : BrokerState) (hs : Reachable s) (k : Bytes)
    (g : Game) (hg : (k, g) ∈ s.games.byName)
    (hreq : g.status = GameStatus.requested) (u : User) :
    g.id = 0 ∧
    joinGame s.users s.games u g.name zeroGuidBytes =
      Users.update s.users { u with location := Location.game g.name } := by
  have hInv := reachable_inv hs
  have hwf := hInv.2.2.1
  have hid : g.id = 0 := hwf.2.2 (k, g) hg hreq
  have hkey : k = toAsciiLower g.name := hwf.1 (k, g) hg
  have hget : s.games.get g.name = some g := by
    unfold Games.get
    rw [← hkey]
    exact lookup_eq_of_mem_nodup hg hwf.2.1
  refine ⟨hid, ?_⟩
  unfold joinGame
  simp only [hget, parseGuid_zero]
  rw [if_pos hid.symm]

/-- Witness for C9: on the reachable demonstration state, the Requested
game "MyGame" carries the zero invite GUID and a zero-GUID `playc` from
bar moves bar into it. -/
theorem c9_zero_guid_requested_witness :
    Reachable demoS3 ∧ (strBytes ("mygame"), demoGame) ∈ demoS3.games.byName ∧
    demoGame.status = GameStatus.requested ∧
    (demoGame.id = 0 ∧
     joinGame demoS3.users demoS3.games demoUser demoGame.name zeroGuidBytes =
       Users.update demoS3.users { demoUser with location := Location.game demoGame.name }) :=
  ⟨⟨[fooLogin, fooHosts, barLogin], rfl⟩, by decide, by decide,
   c9_zero_guid_requested demoS3 ⟨[fooLogin, fooHosts, barLogin], rfl⟩
     (strBytes ("mygame")) demoGame (by decide) (by decide) demoUser⟩

end IeNet
